import Mathlib

set_option maxRecDepth 8000
set_option maxHeartbeats 1600000

/-!
Verification of the MQTT adapter layer (`handler.py` / `service.py`).

The development shallowly embeds the two source files:

* the payload codec (`MQTTHandler.decode_message` / `MQTTHandler.encode_message`)
  together with executable models of the external serialization libraries it
  delegates to (the msgpack wire format and the strict UTF-8 codec);
* the publish helpers (`MQTTHandler.publish_result` / `MQTTHandler.publish_error`)
  as functions from configuration and payload to the list of broker actions issued;
* the service lifecycle callbacks (`MQTTService.on_connect`, `on_subscribe`,
  `on_disconnect`, `on_message`) as explicit state-passing functions over the
  service's mutable state `{subscribed, running, message_count}`.

Python exceptions are embedded as `Option`/`Except` results; a caught exception
is a `none`/`.error` value consumed by the handler that the `try/except` of the
source installs.
-/

namespace MqttSpec

/-! ## Byte-level helpers

Payloads are lists of bytes (`Nat` values; meaningful bytes are `< 256`).
`be2`/`be4`/`be8` are the big-endian encodings used by the msgpack wire format,
`readBE` reads `k` big-endian bytes, `takeBytes` splits off a prefix of `k` bytes. -/

/-- Two-byte big-endian encoding of a natural number (low 16 bits). -/
def be2 (n : Nat) : List Nat :=
  [n / 0x100 % 0x100, n % 0x100]

/-- Four-byte big-endian encoding of a natural number (low 32 bits). -/
def be4 (n : Nat) : List Nat :=
  [n / 0x1000000 % 0x100, n / 0x10000 % 0x100, n / 0x100 % 0x100, n % 0x100]

/-- Eight-byte big-endian encoding of a natural number (low 64 bits). -/
def be8 (n : Nat) : List Nat :=
  [n / 0x100000000000000 % 0x100, n / 0x1000000000000 % 0x100,
   n / 0x10000000000 % 0x100, n / 0x100000000 % 0x100,
   n / 0x1000000 % 0x100, n / 0x10000 % 0x100, n / 0x100 % 0x100, n % 0x100]

/-- Read `k` bytes from the front of the list, accumulating a big-endian value. -/
def readBE : Nat → Nat → List Nat → Option (Nat × List Nat)
  | 0, acc, bs => some (acc, bs)
  | _ + 1, _, [] => none
  | k + 1, acc, b :: bs => readBE k (acc * 0x100 + b) bs

/-- Split off the first `k` bytes of a list, failing if fewer are available. -/
def takeBytes : Nat → List Nat → Option (List Nat × List Nat)
  | 0, bs => some ([], bs)
  | _ + 1, [] => none
  | k + 1, b :: bs =>
    match takeBytes k bs with
    | some (xs, rest) => some (b :: xs, rest)
    | none => none

/-! ## Strict UTF-8 codec

Models Python's `bytes.decode("utf-8")` (strict error handler: rejects
continuation-byte leads, overlong encodings, surrogates and codepoints above
`0x10FFFF`) and `str.encode("utf-8")`. -/

/-- UTF-8 encoding of a single Unicode scalar value. -/
def utf8EncodeCp (n : Nat) : List Nat :=
  if n < 0x80 then [n]
  else if n < 0x800 then [0xC0 + n / 64, 0x80 + n % 64]
  else if n < 0x10000 then [0xE0 + n / 4096, 0x80 + n / 64 % 64, 0x80 + n % 64]
  else [0xF0 + n / 0x40000, 0x80 + n / 4096 % 64, 0x80 + n / 64 % 64, 0x80 + n % 64]

/-- UTF-8 encoding of a list of characters. -/
def utf8EncodeList (cs : List Char) : List Nat :=
  match cs with
  | [] => []
  | c :: cs => utf8EncodeCp c.toNat ++ utf8EncodeList cs

/-- Model of Python `str.encode("utf-8")`. -/
def utf8Encode (s : String) : List Nat :=
  utf8EncodeList s.data

/-- Decode one UTF-8 scalar value from the front of a byte list (strict). -/
def utf8DecodeCp : List Nat → Option (Nat × List Nat)
  | [] => none
  | b0 :: bs =>
    if b0 < 0x80 then some (b0, bs)
    else if b0 < 0xC2 then none
    else if b0 < 0xE0 then
      match bs with
      | b1 :: bs1 =>
        if 0x80 ≤ b1 ∧ b1 ≤ 0xBF then
          some ((b0 - 0xC0) * 64 + (b1 - 0x80), bs1)
        else none
      | [] => none
    else if b0 < 0xF0 then
      match bs with
      | b1 :: b2 :: bs2 =>
        if (if b0 = 0xE0 then 0xA0 ≤ b1 ∧ b1 ≤ 0xBF
            else if b0 = 0xED then 0x80 ≤ b1 ∧ b1 ≤ 0x9F
            else 0x80 ≤ b1 ∧ b1 ≤ 0xBF) ∧ 0x80 ≤ b2 ∧ b2 ≤ 0xBF then
          some ((b0 - 0xE0) * 4096 + (b1 - 0x80) * 64 + (b2 - 0x80), bs2)
        else none
      | _ => none
    else if b0 < 0xF5 then
      match bs with
      | b1 :: b2 :: b3 :: bs3 =>
        if (if b0 = 0xF0 then 0x90 ≤ b1 ∧ b1 ≤ 0xBF
            else if b0 = 0xF4 then 0x80 ≤ b1 ∧ b1 ≤ 0x8F
            else 0x80 ≤ b1 ∧ b1 ≤ 0xBF) ∧ 0x80 ≤ b2 ∧ b2 ≤ 0xBF ∧ 0x80 ≤ b3 ∧ b3 ≤ 0xBF then
          some ((b0 - 0xF0) * 0x40000 + (b1 - 0x80) * 4096 + (b2 - 0x80) * 64 + (b3 - 0x80), bs3)
        else none
      | _ => none
    else none

/-- Fuel-driven loop of the UTF-8 decoder; the fuel bounds the number of
decoded characters (one byte at least is consumed per character). -/
def utf8DecodeAux : Nat → List Nat → Option (List Char)
  | _, [] => some []
  | 0, _ :: _ => none
  | fuel + 1, b :: bs =>
    match utf8DecodeCp (b :: bs) with
    | some (n, bs1) =>
      match utf8DecodeAux fuel bs1 with
      | some cs => some (Char.ofNat n :: cs)
      | none => none
    | none => none

/-- Model of Python `bytes.decode("utf-8")` (strict): `none` is the
`UnicodeDecodeError` case. -/
def utf8Decode (bs : List Nat) : Option String :=
  match utf8DecodeAux bs.length bs with
  | some cs => some (String.mk cs)
  | none => none

/-! ## Payload universe

`Value` is the universe of structured payloads the adapter moves around
(Python objects handled by the msgpack/JSON codecs): `None`, booleans,
integers, IEEE-754 doubles (carried as their raw 64-bit pattern, since the
codec only transports the bits), text strings, byte strings, lists and dicts
(as association lists in insertion order). -/

inductive Value where
  | nil : Value
  | bool (b : Bool) : Value
  | int (n : Int) : Value
  | float (bits : Nat) : Value
  | str (s : String) : Value
  | bin (b : List Nat) : Value
  | array (l : List Value) : Value
  | map (ps : List (Value × Value)) : Value

/-! ## msgpack serializer

Models `msgpack.packb(data, use_bin_type=True)`: the standard msgpack wire
format with minimal-width integer encodings, `str8/16/32` for text and
`bin8/16/32` for bytes.  `none` models the exception raised on
unrepresentable input (an integer outside `[-2^63, 2^64)`, an oversized
container, or a byte string with out-of-range elements). -/

/-- Header bytes of a msgpack-encoded integer (minimal-width encoding). -/
def packInt (n : Int) : Option (List Nat) :=
  if 0 ≤ n ∧ n < 0x80 then some [n.toNat]
  else if -0x20 ≤ n ∧ n < 0 then some [(n + 0x100).toNat]
  else if 0x80 ≤ n ∧ n < 0x100 then some [0xCC, n.toNat]
  else if 0x100 ≤ n ∧ n < 0x10000 then some (0xCD :: be2 n.toNat)
  else if 0x10000 ≤ n ∧ n < 0x100000000 then some (0xCE :: be4 n.toNat)
  else if 0x100000000 ≤ n ∧ n < 0x10000000000000000 then some (0xCF :: be8 n.toNat)
  else if -0x80 ≤ n ∧ n < -0x20 then some [0xD0, (n + 0x100).toNat]
  else if -0x8000 ≤ n ∧ n < -0x80 then some (0xD1 :: be2 (n + 0x10000).toNat)
  else if -0x80000000 ≤ n ∧ n < -0x8000 then some (0xD2 :: be4 (n + 0x100000000).toNat)
  else if -0x8000000000000000 ≤ n ∧ n < -0x80000000 then
    some (0xD3 :: be8 (n + 0x10000000000000000).toNat)
  else none

/-- msgpack encoding of a text string (UTF-8 bytes with str header). -/
def packStr (s : String) : Option (List Nat) :=
  let b := utf8Encode s
  if b.length < 0x20 then some ((0xA0 + b.length) :: b)
  else if b.length < 0x100 then some (0xD9 :: b.length :: b)
  else if b.length < 0x10000 then some (0xDA :: be2 b.length ++ b)
  else if b.length < 0x100000000 then some (0xDB :: be4 b.length ++ b)
  else none

/-- msgpack encoding of a byte string (bin header; fails on non-byte elements). -/
def packBin (b : List Nat) : Option (List Nat) :=
  if b.all (· < 0x100) then
    if b.length < 0x100 then some (0xC4 :: b.length :: b)
    else if b.length < 0x10000 then some (0xC5 :: be2 b.length ++ b)
    else if b.length < 0x100000000 then some (0xC6 :: be4 b.length ++ b)
    else none
  else none

/-- msgpack array header for `n` elements. -/
def arrayHeader (n : Nat) : Option (List Nat) :=
  if n < 0x10 then some [0x90 + n]
  else if n < 0x10000 then some (0xDC :: be2 n)
  else if n < 0x100000000 then some (0xDD :: be4 n)
  else none

/-- msgpack map header for `n` key/value pairs. -/
def mapHeader (n : Nat) : Option (List Nat) :=
  if n < 0x10 then some [0x80 + n]
  else if n < 0x10000 then some (0xDE :: be2 n)
  else if n < 0x100000000 then some (0xDF :: be4 n)
  else none

mutual

/-- Model of `msgpack.packb(data, use_bin_type=True)` on one value. -/
def packValue : Value → Option (List Nat)
  | .nil => some [0xC0]
  | .bool false => some [0xC2]
  | .bool true => some [0xC3]
  | .int n => packInt n
  | .float bits => if bits < 0x10000000000000000 then some (0xCB :: be8 bits) else none
  | .str s => packStr s
  | .bin b => packBin b
  | .array l =>
    match arrayHeader l.length, packSeq l with
    | some hdr, some body => some (hdr ++ body)
    | _, _ => none
  | .map ps =>
    match mapHeader ps.length, packPairSeq ps with
    | some hdr, some body => some (hdr ++ body)
    | _, _ => none

/-- msgpack encoding of the elements of an array, concatenated. -/
def packSeq : List Value → Option (List Nat)
  | [] => some []
  | v :: vs =>
    match packValue v, packSeq vs with
    | some b, some bs => some (b ++ bs)
    | _, _ => none

/-- msgpack encoding of the key/value pairs of a map, concatenated. -/
def packPairSeq : List (Value × Value) → Option (List Nat)
  | [] => some []
  | (k, v) :: ps =>
    match packValue k, packValue v, packPairSeq ps with
    | some bk, some bv, some bs => some (bk ++ bv ++ bs)
    | _, _, _ => none

end

/-! ## JSON serializer

Models Python `json.dumps(data)` with its default settings (`ensure_ascii=True`,
separators `", "` and `": "`) followed by `.encode()`.  Characters outside
`[0x20, 0x7E]`, quotes and backslashes are escaped; non-string scalar map keys
are converted to strings as CPython does; bytes objects and container keys
raise `TypeError`, modelled as `none`.  Python float repr is abstracted as a
function `fr` from the 64-bit pattern to its decimal string. -/

/-- Decimal digit character. -/
def digitChar (n : Nat) : Char :=
  Char.ofNat (48 + n)

/-- Decimal digits of a natural number (fuel-driven; `n + 1` fuel suffices). -/
def natDecAux : Nat → Nat → List Char
  | 0, _ => []
  | fuel + 1, n =>
    if n < 10 then [digitChar n]
    else natDecAux fuel (n / 10) ++ [digitChar (n % 10)]

/-- Decimal representation of a natural number. -/
def natDec (n : Nat) : String :=
  String.mk (natDecAux (n + 1) n)

/-- Decimal representation of an integer, as Python `repr`/`json.dumps` print it. -/
def intDec (n : Int) : String :=
  if n < 0 then "-" ++ natDec (-n).toNat else natDec n.toNat

/-- Lowercase hexadecimal digit character. -/
def hexDigitChar (n : Nat) : Char :=
  if n < 10 then Char.ofNat (48 + n) else Char.ofNat (87 + n)

/-- Four lowercase hex digits (for a `\uXXXX` escape). -/
def hex4 (n : Nat) : List Char :=
  [hexDigitChar (n / 4096 % 16), hexDigitChar (n / 256 % 16),
   hexDigitChar (n / 16 % 16), hexDigitChar (n % 16)]

/-- JSON escaping of one character, as Python `json.dumps` with
`ensure_ascii=True`: short escapes for the usual control characters, `\uXXXX`
(with surrogate pairs above `0xFFFF`) for everything outside `[0x20, 0x7E]`. -/
def jsonEscapeChar (c : Char) : List Char :=
  if c = '"' then ['\\', '"']
  else if c = '\\' then ['\\', '\\']
  else if c.toNat = 8 then ['\\', 'b']
  else if c.toNat = 9 then ['\\', 't']
  else if c.toNat = 10 then ['\\', 'n']
  else if c.toNat = 12 then ['\\', 'f']
  else if c.toNat = 13 then ['\\', 'r']
  else if c.toNat < 0x20 ∨ 0x7E < c.toNat then
    if c.toNat < 0x10000 then '\\' :: 'u' :: hex4 c.toNat
    else
      ('\\' :: 'u' :: hex4 (0xD800 + (c.toNat - 0x10000) / 0x400)) ++
      ('\\' :: 'u' :: hex4 (0xDC00 + (c.toNat - 0x10000) % 0x400))
  else [c]

/-- A JSON string literal: quotes around the escaped characters. -/
def jsonQuote (s : String) : String :=
  String.mk ('"' :: s.data.flatMap jsonEscapeChar ++ ['"'])

/-- String conversion of a map key, as CPython `json.dumps` performs it:
strings stay, integer/float/bool/`None` keys are stringified, anything else
is a `TypeError` (`none`). -/
def jsonKeyStr (fr : Nat → String) : Value → Option String
  | .str s => some (jsonQuote s)
  | .int n => some (jsonQuote (intDec n))
  | .float bits => some (jsonQuote (fr bits))
  | .bool true => some (jsonQuote "true")
  | .bool false => some (jsonQuote "false")
  | .nil => some (jsonQuote "null")
  | .bin _ => none
  | .array _ => none
  | .map _ => none

mutual

/-- Model of Python `json.dumps(data)` (defaults); `none` models `TypeError`. -/
def jsonDumps (fr : Nat → String) : Value → Option String
  | .nil => some "null"
  | .bool true => some "true"
  | .bool false => some "false"
  | .int n => some (intDec n)
  | .float bits => some (fr bits)
  | .str s => some (jsonQuote s)
  | .bin _ => none
  | .array l =>
    match jsonDumpsSeq fr l with
    | some parts => some ("[" ++ String.intercalate ", " parts ++ "]")
    | none => none
  | .map ps =>
    match jsonDumpsPairs fr ps with
    | some parts => some ("\x7b" ++ String.intercalate ", " parts ++ "\x7d")
    | none => none

/-- JSON serialization of the elements of an array. -/
def jsonDumpsSeq (fr : Nat → String) : List Value → Option (List String)
  | [] => some []
  | v :: vs =>
    match jsonDumps fr v, jsonDumpsSeq fr vs with
    | some sv, some svs => some (sv :: svs)
    | _, _ => none

/-- JSON serialization of the `key: value` entries of a map. -/
def jsonDumpsPairs (fr : Nat → String) : List (Value × Value) → Option (List String)
  | [] => some []
  | (k, v) :: ps =>
    match jsonKeyStr fr k, jsonDumps fr v, jsonDumpsPairs fr ps with
    | some sk, some sv, some sps => some ((sk ++ ": " ++ sv) :: sps)
    | _, _, _ => none

end

/-- Keys CPython `json.dumps` accepts in a dict. -/
def jsonKeyOk : Value → Bool
  | .str _ => true
  | .int _ => true
  | .float _ => true
  | .bool _ => true
  | .nil => true
  | .bin _ => false
  | .array _ => false
  | .map _ => false

mutual

/-- The values `json.dumps` serializes without raising. -/
def jsonSerializable : Value → Bool
  | .nil => true
  | .bool _ => true
  | .int _ => true
  | .float _ => true
  | .str _ => true
  | .bin _ => false
  | .array l => jsonSerializableSeq l
  | .map ps => jsonSerializablePairs ps

/-- All elements of an array are JSON-serializable. -/
def jsonSerializableSeq : List Value → Bool
  | [] => true
  | v :: vs => jsonSerializable v && jsonSerializableSeq vs

/-- All keys are admissible and all values JSON-serializable. -/
def jsonSerializablePairs : List (Value × Value) → Bool
  | [] => true
  | (k, v) :: ps => jsonKeyOk k && jsonSerializable v && jsonSerializablePairs ps

end

/-! ## msgpack deserializer

Models `msgpack.unpackb(payload, raw=False)`: a recursive-descent reader of
the msgpack wire format.  Text items are decoded as UTF-8 (strict, as
`raw=False` requires); map keys other than `str`/`bytes` are a `ValueError`
(the library's default `strict_map_key=True`); `float32` items are widened
exactly to doubles; trailing bytes after the single top-level object are an
error (`ExtraData`).  Extension-type headers (`0xC7`-`0xC9`, `0xD4`-`0xD8`)
are outside the model: they denote library wrapper objects
(`msgpack.ExtType`/`msgpack.Timestamp`) that are not part of the adapter's
payload universe and that `packb` on this universe never emits.  The reader
is fuel-driven; `unpackb` supplies fuel that dominates the recursion depth of
any object that fits in the payload. -/

/-- Map keys the deserializer accepts: `msgpack.unpackb(raw=False)` keeps the
library default `strict_map_key=True`, which admits only `str` and `bytes`
keys and raises `ValueError` on anything else. -/
def strictKeyOk : Value → Bool
  | .str _ => true
  | .bin _ => true
  | _ => false

/-- Floor of the base-2 logarithm, fuel-driven (23 steps cover every
binary32 mantissa). -/
def log2Aux : Nat → Nat → Nat
  | 0, _ => 0
  | fuel + 1, n => if n < 2 then 0 else log2Aux fuel (n / 2) + 1

/-- Exact widening of an IEEE-754 binary32 bit pattern to the binary64 bit
pattern of the same number (the effect of reading a msgpack `float32` into a
Python float): sign preserved, exponent rebiased, mantissa shifted left by
29; subnormals are normalized and infinity/NaN keep the maximal exponent with
the shifted payload. -/
def f32ToF64Bits (w : Nat) : Nat :=
  let s := w / 0x80000000 % 2
  let e := w / 0x800000 % 0x100
  let m := w % 0x800000
  if e = 0xFF then s * 0x8000000000000000 + 0x7FF0000000000000 + m * 0x20000000
  else if e = 0 then
    if m = 0 then s * 0x8000000000000000
    else
      s * 0x8000000000000000 + (log2Aux 23 m + 874) * 0x10000000000000 +
        (m - 2 ^ log2Aux 23 m) * 2 ^ (52 - log2Aux 23 m)
  else s * 0x8000000000000000 + (e + 896) * 0x10000000000000 + m * 0x20000000

/-- Read `len` bytes and decode them as a UTF-8 string item. -/
def readStrItem (len : Nat) (bs : List Nat) : Option (Value × List Nat) :=
  match takeBytes len bs with
  | some (sb, rest) =>
    match utf8Decode sb with
    | some s => some (.str s, rest)
    | none => none
  | none => none

/-- Read `len` bytes as a raw binary item. -/
def readBinItem (len : Nat) (bs : List Nat) : Option (Value × List Nat) :=
  match takeBytes len bs with
  | some (sb, rest) => some (.bin sb, rest)
  | none => none

/-- One msgpack object, given decoders (at one fuel level down) for element
sequences and key/value pair sequences.  This is the header-dispatch table of
the msgpack format. -/
def parseValStep
    (pseq : Nat → List Nat → Option (List Value × List Nat))
    (ppairs : Nat → List Nat → Option (List (Value × Value) × List Nat)) :
    List Nat → Option (Value × List Nat)
  | [] => none
  | b :: bs =>
    if b ≤ 0x7F then some (.int b, bs)
    else if b ≤ 0x8F then
      match ppairs (b - 0x80) bs with
      | some (ps, bs1) => some (.map ps, bs1)
      | none => none
    else if b ≤ 0x9F then
      match pseq (b - 0x90) bs with
      | some (vs, bs1) => some (.array vs, bs1)
      | none => none
    else if b ≤ 0xBF then readStrItem (b - 0xA0) bs
    else if b = 0xC0 then some (.nil, bs)
    else if b = 0xC2 then some (.bool false, bs)
    else if b = 0xC3 then some (.bool true, bs)
    else if b = 0xC4 then
      match bs with
      | len :: bs1 => readBinItem len bs1
      | [] => none
    else if b = 0xC5 then
      match readBE 2 0 bs with
      | some (len, bs1) => readBinItem len bs1
      | none => none
    else if b = 0xC6 then
      match readBE 4 0 bs with
      | some (len, bs1) => readBinItem len bs1
      | none => none
    else if b = 0xCA then
      match readBE 4 0 bs with
      | some (w, bs1) => some (.float (f32ToF64Bits w), bs1)
      | none => none
    else if b = 0xCB then
      match readBE 8 0 bs with
      | some (bits, bs1) => some (.float bits, bs1)
      | none => none
    else if b = 0xCC then
      match bs with
      | v :: bs1 => some (.int v, bs1)
      | [] => none
    else if b = 0xCD then
      match readBE 2 0 bs with
      | some (v, bs1) => some (.int v, bs1)
      | none => none
    else if b = 0xCE then
      match readBE 4 0 bs with
      | some (v, bs1) => some (.int v, bs1)
      | none => none
    else if b = 0xCF then
      match readBE 8 0 bs with
      | some (v, bs1) => some (.int v, bs1)
      | none => none
    else if b = 0xD0 then
      match bs with
      | v :: bs1 => some (.int (if v < 0x80 then (v : Int) else (v : Int) - 0x100), bs1)
      | [] => none
    else if b = 0xD1 then
      match readBE 2 0 bs with
      | some (v, bs1) => some (.int (if v < 0x8000 then (v : Int) else (v : Int) - 0x10000), bs1)
      | none => none
    else if b = 0xD2 then
      match readBE 4 0 bs with
      | some (v, bs1) =>
        some (.int (if v < 0x80000000 then (v : Int) else (v : Int) - 0x100000000), bs1)
      | none => none
    else if b = 0xD3 then
      match readBE 8 0 bs with
      | some (v, bs1) =>
        some (.int (if v < 0x8000000000000000 then (v : Int)
                    else (v : Int) - 0x10000000000000000), bs1)
      | none => none
    else if b = 0xD9 then
      match bs with
      | len :: bs1 => readStrItem len bs1
      | [] => none
    else if b = 0xDA then
      match readBE 2 0 bs with
      | some (len, bs1) => readStrItem len bs1
      | none => none
    else if b = 0xDB then
      match readBE 4 0 bs with
      | some (len, bs1) => readStrItem len bs1
      | none => none
    else if b = 0xDC then
      match readBE 2 0 bs with
      | some (n, bs1) =>
        match pseq n bs1 with
        | some (vs, bs2) => some (.array vs, bs2)
        | none => none
      | none => none
    else if b = 0xDD then
      match readBE 4 0 bs with
      | some (n, bs1) =>
        match pseq n bs1 with
        | some (vs, bs2) => some (.array vs, bs2)
        | none => none
      | none => none
    else if b = 0xDE then
      match readBE 2 0 bs with
      | some (n, bs1) =>
        match ppairs n bs1 with
        | some (ps, bs2) => some (.map ps, bs2)
        | none => none
      | none => none
    else if b = 0xDF then
      match readBE 4 0 bs with
      | some (n, bs1) =>
        match ppairs n bs1 with
        | some (ps, bs2) => some (.map ps, bs2)
        | none => none
      | none => none
    else if 0xE0 ≤ b ∧ b ≤ 0xFF then some (.int ((b : Int) - 0x100), bs)
    else none

/-- `n` consecutive msgpack objects, given an object decoder and the
element-sequence decoder one fuel level down. -/
def parseSeqStep
    (pv : List Nat → Option (Value × List Nat))
    (pseq : Nat → List Nat → Option (List Value × List Nat))
    (n : Nat) (bs : List Nat) : Option (List Value × List Nat) :=
  match n with
  | 0 => some ([], bs)
  | n + 1 =>
    match pv bs with
    | some (v, bs1) =>
      match pseq n bs1 with
      | some (vs, bs2) => some (v :: vs, bs2)
      | none => none
    | none => none

/-- `n` consecutive msgpack key/value pairs, given an object decoder and the
pair-sequence decoder one fuel level down.  Each key must pass the
`strict_map_key=True` check (`ValueError`, i.e. `none`, otherwise). -/
def parsePairsStep
    (pv : List Nat → Option (Value × List Nat))
    (ppairs : Nat → List Nat → Option (List (Value × Value) × List Nat))
    (n : Nat) (bs : List Nat) : Option (List (Value × Value) × List Nat) :=
  match n with
  | 0 => some ([], bs)
  | n + 1 =>
    match pv bs with
    | some (k, bs1) =>
      if strictKeyOk k = true then
        match pv bs1 with
        | some (v, bs2) =>
          match ppairs n bs2 with
          | some (ps, bs3) => some ((k, v) :: ps, bs3)
          | none => none
        | none => none
      else none
    | none => none

/-- The fuel-indexed family of msgpack decoders (object, element sequence,
pair sequence); the fuel bounds the recursion depth. -/
def parsers : Nat →
    ((List Nat → Option (Value × List Nat)) ×
     (Nat → List Nat → Option (List Value × List Nat)) ×
     (Nat → List Nat → Option (List (Value × Value) × List Nat)))
  | 0 =>
    (fun _ => none,
     fun n bs => match n with | 0 => some ([], bs) | _ + 1 => none,
     fun n bs => match n with | 0 => some ([], bs) | _ + 1 => none)
  | fuel + 1 =>
    (parseValStep (parsers fuel).2.1 (parsers fuel).2.2,
     parseSeqStep (parsers fuel).1 (parsers fuel).2.1,
     parsePairsStep (parsers fuel).1 (parsers fuel).2.2)

/-- Decode one msgpack object from the front of the byte list. -/
def parseVal (fuel : Nat) (bs : List Nat) : Option (Value × List Nat) :=
  (parsers fuel).1 bs

/-- Decode `n` consecutive msgpack objects (the elements of an array). -/
def parseSeq (fuel n : Nat) (bs : List Nat) : Option (List Value × List Nat) :=
  (parsers fuel).2.1 n bs

/-- Decode `n` consecutive msgpack key/value pairs (the entries of a map). -/
def parsePairs (fuel n : Nat) (bs : List Nat) : Option (List (Value × Value) × List Nat) :=
  (parsers fuel).2.2 n bs

/-- Model of `msgpack.unpackb(payload, raw=False)`: decode a single object
covering the whole payload; `none` models the exceptions the library raises
on malformed, incomplete or trailing data and on non-`str`/`bytes` map keys
(its default `strict_map_key=True`). -/
def unpackb (p : List Nat) : Option Value :=
  match parseVal (2 * p.length + 1) p with
  | some (v, []) => some v
  | some (_, _ :: _) => none
  | none => none

/-- Model of `msgpack.packb(data, use_bin_type=True)`: `none` models the
exception raised on unserializable input. -/
def packb (v : Value) : Option (List Nat) :=
  packValue v

mutual

/-- Payloads whose maps use only `str`/`bytes` keys, at every nesting depth:
the values that survive `unpackb`'s `strict_map_key=True` check. -/
def strictMapKeys : Value → Bool
  | .nil => true
  | .bool _ => true
  | .int _ => true
  | .float _ => true
  | .str _ => true
  | .bin _ => true
  | .array l => strictMapKeysSeq l
  | .map ps => strictMapKeysPairs ps

/-- All elements of an array have strict map keys. -/
def strictMapKeysSeq : List Value → Bool
  | [] => true
  | v :: vs => strictMapKeys v && strictMapKeysSeq vs

/-- Every key is `str`/`bytes` and every value has strict map keys. -/
def strictMapKeysPairs : List (Value × Value) → Bool
  | [] => true
  | (k, v) :: ps => strictKeyOk k && strictMapKeys v && strictMapKeysPairs ps

end

/-! ## Serializability predicates

`msgpackSerializable` states, structurally, which values the msgpack
serializer accepts: integers within `[-2^63, 2^64)`, doubles with a 64-bit
pattern, strings and containers below the `xx32` length limits, and byte
strings whose elements are bytes. -/

mutual

/-- The values `msgpack.packb` serializes without raising. -/
def msgpackSerializable : Value → Bool
  | .nil => true
  | .bool _ => true
  | .int n => decide (-0x8000000000000000 ≤ n ∧ n < 0x10000000000000000)
  | .float bits => decide (bits < 0x10000000000000000)
  | .str s => decide ((utf8Encode s).length < 0x100000000)
  | .bin b => b.all (· < 0x100) && decide (b.length < 0x100000000)
  | .array l => decide (l.length < 0x100000000) && msgpackSerializableSeq l
  | .map ps => decide (ps.length < 0x100000000) && msgpackSerializablePairs ps

/-- All elements of an array are serializable. -/
def msgpackSerializableSeq : List Value → Bool
  | [] => true
  | v :: vs => msgpackSerializable v && msgpackSerializableSeq vs

/-- All keys and values of a map are serializable. -/
def msgpackSerializablePairs : List (Value × Value) → Bool
  | [] => true
  | (k, v) :: ps =>
    msgpackSerializable k && msgpackSerializable v && msgpackSerializablePairs ps

end

/-! ## Recursion measure for the msgpack reader -/

mutual

/-- Fuel needed by `parseVal` to decode the msgpack encoding of a value. -/
def msize : Value → Nat
  | .nil => 1
  | .bool _ => 1
  | .int _ => 1
  | .float _ => 1
  | .str _ => 1
  | .bin _ => 1
  | .array l => 1 + msizeSeq l
  | .map ps => 1 + msizePairs ps

/-- Fuel needed by `parseSeq` for a list of array elements. -/
def msizeSeq : List Value → Nat
  | [] => 0
  | v :: vs => 1 + msize v + msizeSeq vs

/-- Fuel needed by `parsePairs` for a list of map entries. -/
def msizePairs : List (Value × Value) → Nat
  | [] => 0
  | (k, v) :: ps => 1 + msize k + msize v + msizePairs ps

end

/-! ## Lemmas: byte-level helpers -/

theorem readBE_be2 (n : Nat) (h : n < 0x10000) (rest : List Nat) :
    readBE 2 0 (be2 n ++ rest) = some (n, rest) := by
  simp only [be2, List.cons_append, List.nil_append, readBE]
  congr 1
  congr 1
  omega

theorem readBE_be4 (n : Nat) (h : n < 0x100000000) (rest : List Nat) :
    readBE 4 0 (be4 n ++ rest) = some (n, rest) := by
  simp only [be4, List.cons_append, List.nil_append, readBE]
  congr 1
  congr 1
  omega

theorem readBE_be8 (n : Nat) (h : n < 0x10000000000000000) (rest : List Nat) :
    readBE 8 0 (be8 n ++ rest) = some (n, rest) := by
  simp only [be8, List.cons_append, List.nil_append, readBE]
  congr 1
  congr 1
  omega

theorem takeBytes_append (xs rest : List Nat) :
    takeBytes xs.length (xs ++ rest) = some (xs, rest) := by
  induction xs with
  | nil => simp [takeBytes]
  | cons b bs ih => simp [takeBytes, ih]

/-! ## Lemmas: UTF-8 codec round-trip -/

theorem utf8DecodeCp_one (n : Nat) (h : n < 0x80) (rest : List Nat) :
    utf8DecodeCp (n :: rest) = some (n, rest) := by
  simp [utf8DecodeCp, h]

theorem utf8DecodeCp_two (b0 b1 : Nat) (rest : List Nat)
    (h0 : 0xC2 ≤ b0 ∧ b0 ≤ 0xDF) (h1 : 0x80 ≤ b1 ∧ b1 ≤ 0xBF) :
    utf8DecodeCp (b0 :: b1 :: rest) = some ((b0 - 0xC0) * 64 + (b1 - 0x80), rest) := by
  rw [utf8DecodeCp, if_neg (by omega), if_neg (by omega), if_pos (by omega)]
  rw [if_pos h1]

theorem utf8DecodeCp_three (b0 b1 b2 : Nat) (rest : List Nat)
    (h0 : 0xE0 ≤ b0 ∧ b0 ≤ 0xEF)
    (h1 : if b0 = 0xE0 then 0xA0 ≤ b1 ∧ b1 ≤ 0xBF
          else if b0 = 0xED then 0x80 ≤ b1 ∧ b1 ≤ 0x9F
          else 0x80 ≤ b1 ∧ b1 ≤ 0xBF)
    (h2 : 0x80 ≤ b2 ∧ b2 ≤ 0xBF) :
    utf8DecodeCp (b0 :: b1 :: b2 :: rest) =
      some ((b0 - 0xE0) * 4096 + (b1 - 0x80) * 64 + (b2 - 0x80), rest) := by
  rw [utf8DecodeCp, if_neg (by omega), if_neg (by omega), if_neg (by omega),
    if_pos (by omega)]
  exact if_pos ⟨h1, h2⟩

theorem utf8DecodeCp_four (b0 b1 b2 b3 : Nat) (rest : List Nat)
    (h0 : 0xF0 ≤ b0 ∧ b0 ≤ 0xF4)
    (h1 : if b0 = 0xF0 then 0x90 ≤ b1 ∧ b1 ≤ 0xBF
          else if b0 = 0xF4 then 0x80 ≤ b1 ∧ b1 ≤ 0x8F
          else 0x80 ≤ b1 ∧ b1 ≤ 0xBF)
    (h2 : 0x80 ≤ b2 ∧ b2 ≤ 0xBF) (h3 : 0x80 ≤ b3 ∧ b3 ≤ 0xBF) :
    utf8DecodeCp (b0 :: b1 :: b2 :: b3 :: rest) =
      some ((b0 - 0xF0) * 0x40000 + (b1 - 0x80) * 4096 + (b2 - 0x80) * 64 + (b3 - 0x80),
        rest) := by
  rw [utf8DecodeCp, if_neg (by omega), if_neg (by omega), if_neg (by omega),
    if_neg (by omega), if_pos (by omega)]
  exact if_pos ⟨h1, h2.1, h2.2, h3.1, h3.2⟩

theorem utf8DecodeCp_encode (c : Char) (rest : List Nat) :
    utf8DecodeCp (utf8EncodeCp c.toNat ++ rest) = some (c.toNat, rest) := by
  have hv : c.toNat < 0xD800 ∨ (0xDFFF < c.toNat ∧ c.toNat < 0x110000) := c.valid
  rcases Nat.lt_or_ge c.toNat 0x80 with h1 | h1
  · rw [utf8EncodeCp, if_pos h1]
    exact utf8DecodeCp_one c.toNat h1 rest
  rcases Nat.lt_or_ge c.toNat 0x800 with h2 | h2
  · rw [utf8EncodeCp, if_neg (by omega), if_pos h2]
    rw [List.cons_append, List.cons_append, List.nil_append]
    rw [utf8DecodeCp_two _ _ _ (by omega) (by omega)]
    congr 2
    omega
  rcases Nat.lt_or_ge c.toNat 0x10000 with h3 | h3
  · rw [utf8EncodeCp, if_neg (by omega), if_neg (by omega), if_pos h3]
    rw [List.cons_append, List.cons_append, List.cons_append, List.nil_append]
    rw [utf8DecodeCp_three _ _ _ _ (by omega)
      (by split_ifs <;> omega) (by omega)]
    congr 2
    omega
  · rw [utf8EncodeCp, if_neg (by omega), if_neg (by omega), if_neg (by omega)]
    rw [List.cons_append, List.cons_append, List.cons_append, List.cons_append,
      List.nil_append]
    rw [utf8DecodeCp_four _ _ _ _ _ (by omega)
      (by split_ifs <;> omega) (by omega) (by omega)]
    congr 2
    omega

theorem utf8EncodeCp_length_pos (n : Nat) : 1 ≤ (utf8EncodeCp n).length := by
  rw [utf8EncodeCp]
  split_ifs <;> simp

theorem utf8DecodeAux_encodeList (cs : List Char) :
    ∀ fuel, cs.length ≤ fuel → utf8DecodeAux fuel (utf8EncodeList cs) = some cs := by
  induction cs with
  | nil => intro fuel _; rw [utf8EncodeList]; cases fuel <;> rfl
  | cons c cs ih =>
    intro fuel hf
    match fuel with
    | fuel + 1 =>
      have hlen := utf8EncodeCp_length_pos c.toNat
      have hdec := utf8DecodeCp_encode c (utf8EncodeList cs)
      rw [utf8EncodeList]
      cases hE : utf8EncodeCp c.toNat with
      | nil => rw [hE] at hlen; simp at hlen
      | cons b tl =>
        rw [hE] at hdec
        rw [List.cons_append] at hdec
        rw [List.cons_append]
        rw [utf8DecodeAux, hdec]
        simp only [ih fuel (by simpa using hf), Char.ofNat_toNat]

theorem utf8Decode_utf8Encode (s : String) : utf8Decode (utf8Encode s) = some s := by
  have hlen : s.data.length ≤ (utf8EncodeList s.data).length := by
    induction s.data with
    | nil => simp [utf8EncodeList]
    | cons c cs ih =>
      rw [utf8EncodeList]
      have := utf8EncodeCp_length_pos c.toNat
      simp only [List.length_append, List.length_cons]
      omega
  rw [utf8Decode, utf8Encode, utf8DecodeAux_encodeList s.data _ hlen]

/-! ## Lemmas: msgpack reader unfolding and dispatch on range-based headers -/

theorem parseVal_succ (fuel : Nat) (bs : List Nat) :
    parseVal (fuel + 1) bs = parseValStep (parseSeq fuel) (parsePairs fuel) bs := rfl

theorem parseSeq_succ (fuel n : Nat) (bs : List Nat) :
    parseSeq (fuel + 1) n bs = parseSeqStep (parseVal fuel) (parseSeq fuel) n bs := rfl

theorem parsePairs_succ (fuel n : Nat) (bs : List Nat) :
    parsePairs (fuel + 1) n bs = parsePairsStep (parseVal fuel) (parsePairs fuel) n bs := rfl

theorem parseSeq_zero (fuel : Nat) (bs : List Nat) :
    parseSeq fuel 0 bs = some ([], bs) := by
  cases fuel <;> rfl

theorem parsePairs_zero (fuel : Nat) (bs : List Nat) :
    parsePairs fuel 0 bs = some ([], bs) := by
  cases fuel <;> rfl

theorem parseVal_fixint (fuel b : Nat) (bs : List Nat) (h : b ≤ 0x7F) :
    parseVal (fuel + 1) (b :: bs) = some (.int b, bs) := by
  rw [parseVal_succ]
  simp only [parseValStep.eq_def]
  rw [if_pos h]

theorem parseVal_negfix (fuel b : Nat) (bs : List Nat) (h : 0xE0 ≤ b ∧ b ≤ 0xFF) :
    parseVal (fuel + 1) (b :: bs) = some (.int ((b : Int) - 0x100), bs) := by
  rw [parseVal_succ]
  simp only [parseValStep.eq_def]
  iterate 27 rw [if_neg (by omega)]
  rw [if_pos h]

theorem parseVal_fixstr (fuel len : Nat) (bs : List Nat) (h : len < 0x20) :
    parseVal (fuel + 1) ((0xA0 + len) :: bs) = readStrItem len bs := by
  rw [parseVal_succ]
  simp only [parseValStep.eq_def]
  rw [if_neg (by omega), if_neg (by omega), if_neg (by omega), if_pos (by omega)]
  congr 1
  omega

theorem parseVal_fixarray (fuel len : Nat) (bs : List Nat) (h : len < 0x10) :
    parseVal (fuel + 1) ((0x90 + len) :: bs) =
      (match parseSeq fuel len bs with
       | some (vs, bs1) => some (.array vs, bs1)
       | none => none) := by
  rw [parseVal_succ]
  simp only [parseValStep.eq_def]
  rw [if_neg (by omega), if_neg (by omega), if_pos (by omega)]
  have hlen : 0x90 + len - 0x90 = len := by omega
  rw [hlen]

theorem parseVal_fixmap (fuel len : Nat) (bs : List Nat) (h : len < 0x10) :
    parseVal (fuel + 1) ((0x80 + len) :: bs) =
      (match parsePairs fuel len bs with
       | some (ps, bs1) => some (.map ps, bs1)
       | none => none) := by
  rw [parseVal_succ]
  simp only [parseValStep.eq_def]
  rw [if_neg (by omega), if_pos (by omega)]
  have hlen : 0x80 + len - 0x80 = len := by omega
  rw [hlen]

/-! ## Lemmas: sizes of msgpack encodings -/

theorem msize_pos (v : Value) : 1 ≤ msize v := by
  cases v <;> simp [msize]

theorem arrayHeader_length_pos (n : Nat) (h : List Nat) (hh : arrayHeader n = some h) :
    1 ≤ h.length := by
  rw [arrayHeader] at hh
  split_ifs at hh <;> simp only [Option.some.injEq] at hh <;> subst hh <;>
    simp [be2, be4]

theorem mapHeader_length_pos (n : Nat) (h : List Nat) (hh : mapHeader n = some h) :
    1 ≤ h.length := by
  rw [mapHeader] at hh
  split_ifs at hh <;> simp only [Option.some.injEq] at hh <;> subst hh <;>
    simp [be2, be4]

theorem packValue_length_pos (v : Value) (bs : List Nat) (h : packValue v = some bs) :
    1 ≤ bs.length := by
  cases v with
  | nil =>
    simp only [packValue, Option.some.injEq] at h
    subst h; simp
  | bool b =>
    cases b <;> simp only [packValue, Option.some.injEq] at h <;> subst h <;> simp
  | int n =>
    rw [packValue, packInt] at h
    split_ifs at h <;> simp only [Option.some.injEq] at h <;> subst h <;>
      simp [be2, be4, be8]
  | float bits =>
    rw [packValue] at h
    split_ifs at h
    simp only [Option.some.injEq] at h
    subst h; simp
  | str s =>
    rw [packValue] at h
    simp only [packStr] at h
    split_ifs at h <;> simp only [Option.some.injEq] at h <;> subst h <;>
      simp [be2, be4]
  | bin b =>
    rw [packValue, packBin] at h
    split_ifs at h <;> simp only [Option.some.injEq] at h <;> subst h <;>
      simp [be2, be4]
  | array l =>
    rw [packValue] at h
    cases hh : arrayHeader l.length with
    | none => rw [hh] at h; simp at h
    | some hdr =>
      cases hb : packSeq l with
      | none => rw [hh, hb] at h; simp at h
      | some body =>
        rw [hh, hb] at h
        simp only [Option.some.injEq] at h
        subst h
        have := arrayHeader_length_pos _ _ hh
        simp only [List.length_append]
        omega
  | map ps =>
    rw [packValue] at h
    cases hh : mapHeader ps.length with
    | none => rw [hh] at h; simp at h
    | some hdr =>
      cases hb : packPairSeq ps with
      | none => rw [hh, hb] at h; simp at h
      | some body =>
        rw [hh, hb] at h
        simp only [Option.some.injEq] at h
        subst h
        have := mapHeader_length_pos _ _ hh
        simp only [List.length_append]
        omega

/-! ## The msgpack round-trip: parsing inverts packing -/

theorem strictKeyOk_strictMapKeys (k : Value) (h : strictKeyOk k = true) :
    strictMapKeys k = true := by
  cases k <;> simp_all [strictKeyOk, strictMapKeys]

theorem parse_pack (fuel : Nat) :
    (∀ v bs rest, packValue v = some bs → msize v ≤ fuel → strictMapKeys v = true →
      parseVal fuel (bs ++ rest) = some (v, rest)) ∧
    (∀ l bs rest, packSeq l = some bs → msizeSeq l ≤ fuel → strictMapKeysSeq l = true →
      parseSeq fuel l.length (bs ++ rest) = some (l, rest)) ∧
    (∀ ps bs rest, packPairSeq ps = some bs → msizePairs ps ≤ fuel →
      strictMapKeysPairs ps = true →
      parsePairs fuel ps.length (bs ++ rest) = some (ps, rest)) := by
  induction fuel with
  | zero =>
    refine ⟨?_, ?_, ?_⟩
    · intro v bs rest _ hs _
      exact absurd hs (by have := msize_pos v; omega)
    · intro l bs rest hp hs _
      cases l with
      | nil =>
        simp only [packSeq, Option.some.injEq] at hp
        subst hp
        simp [parseSeq_zero]
      | cons v vs => exact absurd hs (by simp [msizeSeq])
    · intro ps bs rest hp hs _
      cases ps with
      | nil =>
        simp only [packPairSeq, Option.some.injEq] at hp
        subst hp
        simp [parsePairs_zero]
      | cons kv ps =>
        obtain ⟨k, v⟩ := kv
        exact absurd hs (by simp [msizePairs])
  | succ fuel ih =>
    obtain ⟨ih1, ih2, ih3⟩ := ih
    refine ⟨?_, ?_, ?_⟩
    · intro v bs rest hp hs hsk
      cases v with
      | nil =>
        simp only [packValue, Option.some.injEq] at hp
        subst hp
        simp [parseVal_succ, parseValStep.eq_def]
      | bool b =>
        cases b <;> simp only [packValue, Option.some.injEq] at hp <;> subst hp <;>
          simp [parseVal_succ, parseValStep.eq_def]
      | int n =>
        rw [packValue, packInt] at hp
        split_ifs at hp with h1 h2 h3 h4 h5 h6 h7 h8 h9 h10
        all_goals simp only [Option.some.injEq] at hp
        all_goals subst hp
        · rw [List.cons_append, List.nil_append,
            parseVal_fixint fuel n.toNat rest (by omega)]
          have hc : ((n.toNat : Nat) : Int) = n := by omega
          rw [hc]
        · rw [List.cons_append, List.nil_append,
            parseVal_negfix fuel (n + 0x100).toNat rest (by omega)]
          have hc : (((n + 0x100).toNat : Nat) : Int) - 0x100 = n := by omega
          rw [hc]
        · have hc : ((n.toNat : Nat) : Int) = n := by omega
          simp [parseVal_succ, parseValStep.eq_def, hc]
        · have hrd := readBE_be2 n.toNat (by omega) rest
          have hc : ((n.toNat : Nat) : Int) = n := by omega
          simp [parseVal_succ, parseValStep.eq_def, List.cons_append, hrd, hc]
        · have hrd := readBE_be4 n.toNat (by omega) rest
          have hc : ((n.toNat : Nat) : Int) = n := by omega
          simp [parseVal_succ, parseValStep.eq_def, List.cons_append, hrd, hc]
        · have hrd := readBE_be8 n.toNat (by omega) rest
          have hc : ((n.toNat : Nat) : Int) = n := by omega
          simp [parseVal_succ, parseValStep.eq_def, List.cons_append, hrd, hc]
        · have hv : ¬ ((n + 0x100).toNat < 0x80) := by omega
          simp [parseVal_succ, parseValStep.eq_def, hv]
          omega
        · have hrd := readBE_be2 (n + 0x10000).toNat (by omega) rest
          have hv : ¬ ((n + 0x10000).toNat < 0x8000) := by omega
          simp [parseVal_succ, parseValStep.eq_def, List.cons_append, hrd, hv]
          omega
        · have hrd := readBE_be4 (n + 0x100000000).toNat (by omega) rest
          have hv : ¬ ((n + 0x100000000).toNat < 0x80000000) := by omega
          simp [parseVal_succ, parseValStep.eq_def, List.cons_append, hrd, hv]
          omega
        · have hrd := readBE_be8 (n + 0x10000000000000000).toNat (by omega) rest
          have hv : ¬ ((n + 0x10000000000000000).toNat < 0x8000000000000000) := by omega
          simp [parseVal_succ, parseValStep.eq_def, List.cons_append, hrd, hv]
          omega
      | float bits =>
        rw [packValue] at hp
        split_ifs at hp with h1
        simp only [Option.some.injEq] at hp
        subst hp
        have hrd := readBE_be8 bits h1 rest
        simp [parseVal_succ, parseValStep.eq_def, List.cons_append, hrd]
      | str s =>
        rw [packValue] at hp
        simp only [packStr] at hp
        split_ifs at hp with h1 h2 h3 h4
        all_goals simp only [Option.some.injEq] at hp
        all_goals subst hp
        · rw [List.cons_append, parseVal_fixstr fuel _ _ h1]
          simp [readStrItem, takeBytes_append, utf8Decode_utf8Encode]
        · simp [parseVal_succ, parseValStep.eq_def, List.cons_append, readStrItem,
            takeBytes_append, utf8Decode_utf8Encode]
        · have hrd := readBE_be2 (utf8Encode s).length (by omega) (utf8Encode s ++ rest)
          simp [parseVal_succ, parseValStep.eq_def, List.cons_append, List.append_assoc,
            hrd, readStrItem, takeBytes_append, utf8Decode_utf8Encode]
        · have hrd := readBE_be4 (utf8Encode s).length (by omega) (utf8Encode s ++ rest)
          simp [parseVal_succ, parseValStep.eq_def, List.cons_append, List.append_assoc,
            hrd, readStrItem, takeBytes_append, utf8Decode_utf8Encode]
      | bin b =>
        rw [packValue, packBin] at hp
        split_ifs at hp with hall h1 h2 h3
        all_goals simp only [Option.some.injEq] at hp
        all_goals subst hp
        · simp [parseVal_succ, parseValStep.eq_def, List.cons_append, readBinItem,
            takeBytes_append]
        · have hrd := readBE_be2 b.length (by omega) (b ++ rest)
          simp [parseVal_succ, parseValStep.eq_def, List.cons_append, List.append_assoc,
            hrd, readBinItem, takeBytes_append]
        · have hrd := readBE_be4 b.length (by omega) (b ++ rest)
          simp [parseVal_succ, parseValStep.eq_def, List.cons_append, List.append_assoc,
            hrd, readBinItem, takeBytes_append]
      | array l =>
        rw [packValue] at hp
        cases hh : arrayHeader l.length with
        | none => rw [hh] at hp; simp at hp
        | some hdr =>
          cases hb : packSeq l with
          | none => rw [hh, hb] at hp; simp at hp
          | some body =>
            rw [hh, hb] at hp
            simp only [Option.some.injEq] at hp
            subst hp
            rw [msize] at hs
            rw [strictMapKeys] at hsk
            have hseq := ih2 l body rest hb (by omega) hsk
            rw [arrayHeader] at hh
            split_ifs at hh with g1 g2 g3
            all_goals simp only [Option.some.injEq] at hh
            all_goals subst hh
            · rw [List.cons_append, List.nil_append, List.cons_append,
                parseVal_fixarray fuel _ _ g1, hseq]
            · have hrd := readBE_be2 l.length (by omega) (body ++ rest)
              simp [parseVal_succ, parseValStep.eq_def, List.cons_append,
                List.append_assoc, hrd, hseq]
            · have hrd := readBE_be4 l.length (by omega) (body ++ rest)
              simp [parseVal_succ, parseValStep.eq_def, List.cons_append,
                List.append_assoc, hrd, hseq]
      | map ps =>
        rw [packValue] at hp
        cases hh : mapHeader ps.length with
        | none => rw [hh] at hp; simp at hp
        | some hdr =>
          cases hb : packPairSeq ps with
          | none => rw [hh, hb] at hp; simp at hp
          | some body =>
            rw [hh, hb] at hp
            simp only [Option.some.injEq] at hp
            subst hp
            rw [msize] at hs
            rw [strictMapKeys] at hsk
            have hpairs := ih3 ps body rest hb (by omega) hsk
            rw [mapHeader] at hh
            split_ifs at hh with g1 g2 g3
            all_goals simp only [Option.some.injEq] at hh
            all_goals subst hh
            · rw [List.cons_append, List.nil_append, List.cons_append,
                parseVal_fixmap fuel _ _ g1, hpairs]
            · have hrd := readBE_be2 ps.length (by omega) (body ++ rest)
              simp [parseVal_succ, parseValStep.eq_def, List.cons_append,
                List.append_assoc, hrd, hpairs]
            · have hrd := readBE_be4 ps.length (by omega) (body ++ rest)
              simp [parseVal_succ, parseValStep.eq_def, List.cons_append,
                List.append_assoc, hrd, hpairs]
    · intro l bs rest hp hs hsk
      cases l with
      | nil =>
        simp only [packSeq, Option.some.injEq] at hp
        subst hp
        simp [parseSeq_zero]
      | cons v vs =>
        rw [packSeq] at hp
        cases hv : packValue v with
        | none => rw [hv] at hp; simp at hp
        | some bv =>
          cases hvs : packSeq vs with
          | none => rw [hv, hvs] at hp; simp at hp
          | some bvs =>
            rw [hv, hvs] at hp
            simp only [Option.some.injEq] at hp
            subst hp
            rw [msizeSeq] at hs
            rw [strictMapKeysSeq] at hsk
            simp only [Bool.and_eq_true] at hsk
            have h1 := ih1 v bv (bvs ++ rest) hv (by omega) hsk.1
            have h2 := ih2 vs bvs rest hvs (by omega) hsk.2
            rw [List.length_cons, List.append_assoc, parseSeq_succ]
            simp [parseSeqStep, h1, h2]
    · intro ps bs rest hp hs hsk
      cases ps with
      | nil =>
        simp only [packPairSeq, Option.some.injEq] at hp
        subst hp
        simp [parsePairs_zero]
      | cons kv ps =>
        obtain ⟨k, v⟩ := kv
        rw [packPairSeq] at hp
        cases hk : packValue k with
        | none => rw [hk] at hp; simp at hp
        | some bk =>
          cases hv : packValue v with
          | none => rw [hk, hv] at hp; simp at hp
          | some bv =>
            cases hps : packPairSeq ps with
            | none => rw [hk, hv, hps] at hp; simp at hp
            | some bps =>
              rw [hk, hv, hps] at hp
              simp only [Option.some.injEq] at hp
              subst hp
              rw [msizePairs] at hs
              rw [strictMapKeysPairs] at hsk
              simp only [Bool.and_eq_true] at hsk
              have h1 := ih1 k bk (bv ++ (bps ++ rest)) hk (by omega)
                (strictKeyOk_strictMapKeys k hsk.1.1)
              have h2 := ih1 v bv (bps ++ rest) hv (by omega) hsk.1.2
              have h3 := ih3 ps bps rest hps (by omega) hsk.2
              rw [List.length_cons, List.append_assoc, List.append_assoc, parsePairs_succ]
              simp [parsePairsStep, h1, h2, h3, hsk.1.1]

theorem msize_le_two_len (n : Nat) :
    (∀ v bs, msize v ≤ n → packValue v = some bs → msize v + 1 ≤ 2 * bs.length) ∧
    (∀ l bs, msizeSeq l ≤ n → packSeq l = some bs → msizeSeq l ≤ 2 * bs.length) ∧
    (∀ ps bs, msizePairs ps ≤ n → packPairSeq ps = some bs →
      msizePairs ps ≤ 2 * bs.length) := by
  induction n with
  | zero =>
    refine ⟨?_, ?_, ?_⟩
    · intro v bs hs _
      exact absurd hs (by have := msize_pos v; omega)
    · intro l bs hs hp
      cases l with
      | nil =>
        simp only [packSeq, Option.some.injEq] at hp
        subst hp
        simp [msizeSeq]
      | cons v vs => exact absurd hs (by simp [msizeSeq])
    · intro ps bs hs hp
      cases ps with
      | nil =>
        simp only [packPairSeq, Option.some.injEq] at hp
        subst hp
        simp [msizePairs]
      | cons kv ps =>
        obtain ⟨k, v⟩ := kv
        exact absurd hs (by simp [msizePairs])
  | succ n ih =>
    obtain ⟨ih1, ih2, ih3⟩ := ih
    refine ⟨?_, ?_, ?_⟩
    · intro v bs hs hp
      cases v with
      | nil =>
        have := packValue_length_pos _ _ hp
        simp [msize]
        omega
      | bool b =>
        have := packValue_length_pos _ _ hp
        simp [msize]
        omega
      | int m =>
        have := packValue_length_pos _ _ hp
        simp [msize]
        omega
      | float bits =>
        have := packValue_length_pos _ _ hp
        simp [msize]
        omega
      | str s =>
        have := packValue_length_pos _ _ hp
        simp [msize]
        omega
      | bin b =>
        have := packValue_length_pos _ _ hp
        simp [msize]
        omega
      | array l =>
        rw [packValue] at hp
        cases hh : arrayHeader l.length with
        | none => rw [hh] at hp; simp at hp
        | some hdr =>
          cases hb : packSeq l with
          | none => rw [hh, hb] at hp; simp at hp
          | some body =>
            rw [hh, hb] at hp
            simp only [Option.some.injEq] at hp
            subst hp
            rw [msize] at hs ⊢
            have hhl := arrayHeader_length_pos _ _ hh
            have := ih2 l body (by omega) hb
            simp only [List.length_append]
            omega
      | map ps =>
        rw [packValue] at hp
        cases hh : mapHeader ps.length with
        | none => rw [hh] at hp; simp at hp
        | some hdr =>
          cases hb : packPairSeq ps with
          | none => rw [hh, hb] at hp; simp at hp
          | some body =>
            rw [hh, hb] at hp
            simp only [Option.some.injEq] at hp
            subst hp
            rw [msize] at hs ⊢
            have hhl := mapHeader_length_pos _ _ hh
            have := ih3 ps body (by omega) hb
            simp only [List.length_append]
            omega
    · intro l bs hs hp
      cases l with
      | nil =>
        simp only [packSeq, Option.some.injEq] at hp
        subst hp
        simp [msizeSeq]
      | cons v vs =>
        rw [packSeq] at hp
        cases hv : packValue v with
        | none => rw [hv] at hp; simp at hp
        | some bv =>
          cases hvs : packSeq vs with
          | none => rw [hv, hvs] at hp; simp at hp
          | some bvs =>
            rw [hv, hvs] at hp
            simp only [Option.some.injEq] at hp
            subst hp
            rw [msizeSeq] at hs ⊢
            have h1 := ih1 v bv (by omega) hv
            have h2 := ih2 vs bvs (by omega) hvs
            simp only [List.length_append]
            omega
    · intro ps bs hs hp
      cases ps with
      | nil =>
        simp only [packPairSeq, Option.some.injEq] at hp
        subst hp
        simp [msizePairs]
      | cons kv ps =>
        obtain ⟨k, v⟩ := kv
        rw [packPairSeq] at hp
        cases hk : packValue k with
        | none => rw [hk] at hp; simp at hp
        | some bk =>
          cases hv : packValue v with
          | none => rw [hk, hv] at hp; simp at hp
          | some bv =>
            cases hps : packPairSeq ps with
            | none => rw [hk, hv, hps] at hp; simp at hp
            | some bps =>
              rw [hk, hv, hps] at hp
              simp only [Option.some.injEq] at hp
              subst hp
              rw [msizePairs] at hs ⊢
              have h1 := ih1 k bk (by omega) hk
              have h2 := ih1 v bv (by omega) hv
              have h3 := ih3 ps bps (by omega) hps
              simp only [List.length_append]
              omega

/-- The round trip at the level of the external msgpack library: unpacking
inverts packing whenever packing succeeds, provided every map key in the
payload is a `str`/`bytes` key (otherwise `unpackb`'s `strict_map_key=True`
check rejects the encoding it is given). -/
theorem unpackb_packb (v : Value) (bs : List Nat) (hsk : strictMapKeys v = true)
    (h : packb v = some bs) : unpackb bs = some v := by
  rw [packb] at h
  have h1 := (msize_le_two_len (msize v)).1 v bs le_rfl h
  have h2 := (parse_pack (2 * bs.length + 1)).1 v bs [] h (by omega) hsk
  rw [List.append_nil] at h2
  rw [unpackb, h2]

/-! ## packb succeeds exactly on serializable values -/

theorem arrayHeader_isSome (n : Nat) :
    (arrayHeader n).isSome = true ↔ n < 0x100000000 := by
  rw [arrayHeader]
  split_ifs <;> simp <;> omega

theorem mapHeader_isSome (n : Nat) :
    (mapHeader n).isSome = true ↔ n < 0x100000000 := by
  rw [mapHeader]
  split_ifs <;> simp <;> omega

theorem pack_isSome_iff (n : Nat) :
    (∀ v, msize v ≤ n →
      ((packValue v).isSome = true ↔ msgpackSerializable v = true)) ∧
    (∀ l, msizeSeq l ≤ n →
      ((packSeq l).isSome = true ↔ msgpackSerializableSeq l = true)) ∧
    (∀ ps, msizePairs ps ≤ n →
      ((packPairSeq ps).isSome = true ↔ msgpackSerializablePairs ps = true)) := by
  induction n with
  | zero =>
    refine ⟨?_, ?_, ?_⟩
    · intro v hs
      exact absurd hs (by have := msize_pos v; omega)
    · intro l hs
      cases l with
      | nil => simp [packSeq, msgpackSerializableSeq]
      | cons v vs => exact absurd hs (by simp [msizeSeq])
    · intro ps hs
      cases ps with
      | nil => simp [packPairSeq, msgpackSerializablePairs]
      | cons kv ps =>
        obtain ⟨k, v⟩ := kv
        exact absurd hs (by simp [msizePairs])
  | succ n ih =>
    obtain ⟨ih1, ih2, ih3⟩ := ih
    refine ⟨?_, ?_, ?_⟩
    · intro v hs
      cases v with
      | nil => simp [packValue, msgpackSerializable]
      | bool b => cases b <;> simp [packValue, msgpackSerializable]
      | int m =>
        rw [packValue, packInt, msgpackSerializable]
        split_ifs <;> simp <;> omega
      | float bits =>
        rw [packValue, msgpackSerializable]
        split_ifs <;> simp <;> omega
      | str s =>
        rw [packValue, msgpackSerializable]
        simp only [packStr]
        split_ifs <;> simp <;> omega
      | bin b =>
        rw [packValue, packBin, msgpackSerializable]
        split_ifs with hall h1 h2 h3 <;> simp_all <;> omega
      | array l =>
        rw [packValue, msgpackSerializable]
        rw [msize] at hs
        have hseq := ih2 l (by omega)
        have hhd := arrayHeader_isSome l.length
        cases hh : arrayHeader l.length with
        | none =>
          rw [hh] at hhd
          simp only [Option.isSome_none, Bool.false_eq_true, false_iff] at hhd
          simp only []
          constructor
          · intro hcon
            exact absurd hcon (by simp)
          · intro hcon
            simp only [Bool.and_eq_true, decide_eq_true_eq] at hcon
            exact absurd hcon.1 hhd
        | some hdr =>
          rw [hh] at hhd
          simp only [Option.isSome_some, true_iff] at hhd
          cases hb : packSeq l with
          | none =>
            rw [hb] at hseq
            simp only [Option.isSome_none, Bool.false_eq_true, false_iff] at hseq
            simp only []
            constructor
            · intro hcon
              exact absurd hcon (by simp)
            · intro hcon
              simp only [Bool.and_eq_true, decide_eq_true_eq] at hcon
              exact absurd hcon.2 hseq
          | some body =>
            rw [hb] at hseq
            simp only [Option.isSome_some, true_iff] at hseq
            simp [hseq, hhd]
      | map ps =>
        rw [packValue, msgpackSerializable]
        rw [msize] at hs
        have hseq := ih3 ps (by omega)
        have hhd := mapHeader_isSome ps.length
        cases hh : mapHeader ps.length with
        | none =>
          rw [hh] at hhd
          simp only [Option.isSome_none, Bool.false_eq_true, false_iff] at hhd
          simp only []
          constructor
          · intro hcon
            exact absurd hcon (by simp)
          · intro hcon
            simp only [Bool.and_eq_true, decide_eq_true_eq] at hcon
            exact absurd hcon.1 hhd
        | some hdr =>
          rw [hh] at hhd
          simp only [Option.isSome_some, true_iff] at hhd
          cases hb : packPairSeq ps with
          | none =>
            rw [hb] at hseq
            simp only [Option.isSome_none, Bool.false_eq_true, false_iff] at hseq
            simp only []
            constructor
            · intro hcon
              exact absurd hcon (by simp)
            · intro hcon
              simp only [Bool.and_eq_true, decide_eq_true_eq] at hcon
              exact absurd hcon.2 hseq
          | some body =>
            rw [hb] at hseq
            simp only [Option.isSome_some, true_iff] at hseq
            simp [hseq, hhd]
    · intro l hs
      cases l with
      | nil => simp [packSeq, msgpackSerializableSeq]
      | cons v vs =>
        rw [packSeq, msgpackSerializableSeq]
        rw [msizeSeq] at hs
        have h1 := ih1 v (by omega)
        have h2 := ih2 vs (by omega)
        cases hv : packValue v with
        | none =>
          rw [hv] at h1
          simp only [Option.isSome_none, Bool.false_eq_true, false_iff] at h1
          simp [h1]
        | some bv =>
          rw [hv] at h1
          simp only [Option.isSome_some, true_iff] at h1
          cases hvs : packSeq vs with
          | none =>
            rw [hvs] at h2
            simp only [Option.isSome_none, Bool.false_eq_true, false_iff] at h2
            simp [h1, h2]
          | some bvs =>
            rw [hvs] at h2
            simp only [Option.isSome_some, true_iff] at h2
            simp [h1, h2]
    · intro ps hs
      cases ps with
      | nil => simp [packPairSeq, msgpackSerializablePairs]
      | cons kv ps =>
        obtain ⟨k, v⟩ := kv
        rw [packPairSeq, msgpackSerializablePairs]
        rw [msizePairs] at hs
        have h1 := ih1 k (by omega)
        have h2 := ih1 v (by omega)
        have h3 := ih3 ps (by omega)
        cases hk : packValue k with
        | none =>
          rw [hk] at h1
          simp only [Option.isSome_none, Bool.false_eq_true, false_iff] at h1
          simp [h1]
        | some bk =>
          rw [hk] at h1
          simp only [Option.isSome_some, true_iff] at h1
          cases hv : packValue v with
          | none =>
            rw [hv] at h2
            simp only [Option.isSome_none, Bool.false_eq_true, false_iff] at h2
            simp [h1, h2]
          | some bv =>
            rw [hv] at h2
            simp only [Option.isSome_some, true_iff] at h2
            cases hps : packPairSeq ps with
            | none =>
              rw [hps] at h3
              simp only [Option.isSome_none, Bool.false_eq_true, false_iff] at h3
              simp [h1, h2, h3]
            | some bps =>
              rw [hps] at h3
              simp only [Option.isSome_some, true_iff] at h3
              simp [h1, h2, h3]

/-- `msgpack.packb` fails exactly on non-serializable values. -/
theorem packb_isSome_iff (v : Value) :
    (packb v).isSome = true ↔ msgpackSerializable v = true := by
  rw [packb]
  exact (pack_isSome_iff (msize v)).1 v le_rfl

/-! ## jsonDumps succeeds exactly on JSON-serializable values -/

theorem jsonKeyStr_isSome (fr : Nat → String) (k : Value) :
    ((jsonKeyStr fr k).isSome = true) ↔ jsonKeyOk k = true := by
  cases k with
  | bool b => cases b <;> simp [jsonKeyStr, jsonKeyOk]
  | _ => simp [jsonKeyStr, jsonKeyOk]

theorem jsonDumps_isSome (fr : Nat → String) (n : Nat) :
    (∀ v, msize v ≤ n →
      ((jsonDumps fr v).isSome = true ↔ jsonSerializable v = true)) ∧
    (∀ l, msizeSeq l ≤ n →
      ((jsonDumpsSeq fr l).isSome = true ↔ jsonSerializableSeq l = true)) ∧
    (∀ ps, msizePairs ps ≤ n →
      ((jsonDumpsPairs fr ps).isSome = true ↔ jsonSerializablePairs ps = true)) := by
  induction n with
  | zero =>
    refine ⟨?_, ?_, ?_⟩
    · intro v hs
      exact absurd hs (by have := msize_pos v; omega)
    · intro l hs
      cases l with
      | nil => simp [jsonDumpsSeq, jsonSerializableSeq]
      | cons v vs => exact absurd hs (by simp [msizeSeq])
    · intro ps hs
      cases ps with
      | nil => simp [jsonDumpsPairs, jsonSerializablePairs]
      | cons kv ps =>
        obtain ⟨k, v⟩ := kv
        exact absurd hs (by simp [msizePairs])
  | succ n ih =>
    obtain ⟨ih1, ih2, ih3⟩ := ih
    refine ⟨?_, ?_, ?_⟩
    · intro v hs
      cases v with
      | nil => simp [jsonDumps, jsonSerializable]
      | bool b => cases b <;> simp [jsonDumps, jsonSerializable]
      | int m => simp [jsonDumps, jsonSerializable]
      | float bits => simp [jsonDumps, jsonSerializable]
      | str s => simp [jsonDumps, jsonSerializable]
      | bin b => simp [jsonDumps, jsonSerializable]
      | array l =>
        rw [jsonDumps, jsonSerializable]
        rw [msize] at hs
        have hseq := ih2 l (by omega)
        cases hb : jsonDumpsSeq fr l with
        | none =>
          rw [hb] at hseq
          simp only [Option.isSome_none, Bool.false_eq_true, false_iff] at hseq
          simp [hseq]
        | some parts =>
          rw [hb] at hseq
          simp only [Option.isSome_some, true_iff] at hseq
          simp [hseq]
      | map ps =>
        rw [jsonDumps, jsonSerializable]
        rw [msize] at hs
        have hpairs := ih3 ps (by omega)
        cases hb : jsonDumpsPairs fr ps with
        | none =>
          rw [hb] at hpairs
          simp only [Option.isSome_none, Bool.false_eq_true, false_iff] at hpairs
          simp [hpairs]
        | some parts =>
          rw [hb] at hpairs
          simp only [Option.isSome_some, true_iff] at hpairs
          simp [hpairs]
    · intro l hs
      cases l with
      | nil => simp [jsonDumpsSeq, jsonSerializableSeq]
      | cons v vs =>
        rw [jsonDumpsSeq, jsonSerializableSeq]
        rw [msizeSeq] at hs
        have h1 := ih1 v (by omega)
        have h2 := ih2 vs (by omega)
        cases hv : jsonDumps fr v with
        | none =>
          rw [hv] at h1
          simp only [Option.isSome_none, Bool.false_eq_true, false_iff] at h1
          simp [h1]
        | some sv =>
          rw [hv] at h1
          simp only [Option.isSome_some, true_iff] at h1
          cases hvs : jsonDumpsSeq fr vs with
          | none =>
            rw [hvs] at h2
            simp only [Option.isSome_none, Bool.false_eq_true, false_iff] at h2
            simp [h1, h2]
          | some svs =>
            rw [hvs] at h2
            simp only [Option.isSome_some, true_iff] at h2
            simp [h1, h2]
    · intro ps hs
      cases ps with
      | nil => simp [jsonDumpsPairs, jsonSerializablePairs]
      | cons kv ps =>
        obtain ⟨k, v⟩ := kv
        rw [jsonDumpsPairs, jsonSerializablePairs]
        rw [msizePairs] at hs
        have hk0 := jsonKeyStr_isSome fr k
        have h2 := ih1 v (by omega)
        have h3 := ih3 ps (by omega)
        cases hk : jsonKeyStr fr k with
        | none =>
          rw [hk] at hk0
          simp only [Option.isSome_none, Bool.false_eq_true, false_iff] at hk0
          simp [hk0]
        | some sk =>
          rw [hk] at hk0
          simp only [Option.isSome_some, true_iff] at hk0
          cases hv : jsonDumps fr v with
          | none =>
            rw [hv] at h2
            simp only [Option.isSome_none, Bool.false_eq_true, false_iff] at h2
            simp [hk0, h2]
          | some sv =>
            rw [hv] at h2
            simp only [Option.isSome_some, true_iff] at h2
            cases hps : jsonDumpsPairs fr ps with
            | none =>
              rw [hps] at h3
              simp only [Option.isSome_none, Bool.false_eq_true, false_iff] at h3
              simp [hk0, h2, h3]
            | some sps =>
              rw [hps] at h3
              simp only [Option.isSome_some, true_iff] at h3
              simp [hk0, h2, h3]

/-- `json.dumps` fails exactly on non-JSON-serializable values, whatever the
float printer does. -/
theorem jsonDumps_isSome_iff (fr : Nat → String) (v : Value) :
    ((jsonDumps fr v).isSome = true) ↔ jsonSerializable v = true :=
  (jsonDumps_isSome fr (msize v)).1 v le_rfl

/-! ## Serialized output is never empty -/

theorem natDecAux_ne_nil (fuel n : Nat) : natDecAux (fuel + 1) n ≠ [] := by
  rw [natDecAux]
  split_ifs <;> simp

theorem natDec_ne_nil (n : Nat) : (natDec n).data ≠ [] := by
  rw [natDec]
  exact natDecAux_ne_nil n n

theorem intDec_ne_nil (n : Int) : (intDec n).data ≠ [] := by
  rw [intDec]
  split_ifs with h
  · intro hcon
    have := congrArg List.length hcon
    simp [String.data_append] at this
  · exact natDec_ne_nil _

theorem jsonDumps_ne_nil (fr : Nat → String) (hfr : ∀ b, (fr b).data ≠ [])
    (v : Value) (s : String) (h : jsonDumps fr v = some s) : s.data ≠ [] := by
  cases v with
  | nil =>
    simp only [jsonDumps, Option.some.injEq] at h
    subst h; simp
  | bool b =>
    cases b <;> simp only [jsonDumps, Option.some.injEq] at h <;> subst h <;> simp
  | int m =>
    simp only [jsonDumps, Option.some.injEq] at h
    subst h
    exact intDec_ne_nil m
  | float bits =>
    simp only [jsonDumps, Option.some.injEq] at h
    subst h
    exact hfr bits
  | str t =>
    simp only [jsonDumps, Option.some.injEq] at h
    subst h
    simp [jsonQuote]
  | bin b => simp [jsonDumps] at h
  | array l =>
    rw [jsonDumps] at h
    cases hb : jsonDumpsSeq fr l with
    | none => rw [hb] at h; simp at h
    | some parts =>
      rw [hb] at h
      simp only [Option.some.injEq] at h
      subst h
      intro hcon
      have := congrArg List.length hcon
      simp [String.data_append] at this
  | map ps =>
    rw [jsonDumps] at h
    cases hb : jsonDumpsPairs fr ps with
    | none => rw [hb] at h; simp at h
    | some parts =>
      rw [hb] at h
      simp only [Option.some.injEq] at h
      subst h
      intro hcon
      have := congrArg List.length hcon
      simp [String.data_append] at this

theorem utf8Encode_ne_nil (s : String) (h : s.data ≠ []) : utf8Encode s ≠ [] := by
  rw [utf8Encode]
  cases hd : s.data with
  | nil => exact absurd hd h
  | cons c cs =>
    rw [utf8EncodeList]
    have h1 := utf8EncodeCp_length_pos c.toNat
    intro hcon
    have h2 := congrArg List.length hcon
    rw [List.length_append] at h2
    simp only [List.length_nil] at h2
    omega

/-! ## The transport adapter (`handler.py`)

`Config` carries the class-level configuration read from environment
variables in `MQTTHandler`, with the source defaults.  `decode_message` and
`encode_message` embed the codec methods; the `try/except` bodies become
`Option` plumbing (`none` = the caught exception), and the external JSON
parser `json.loads` is abstracted as a total function `jp` (total because the
source catches `json.JSONDecodeError`; any non-`JSONDecodeError` failure of
the JSON attempt would be caught by the outer handler, which the `none`
result of `utf8Decode` already covers, since `payload.decode("utf-8")` is
evaluated first). -/

/-- Class-level configuration of `MQTTHandler` (environment variables with
their source defaults). -/
structure Config where
  MQTT_HOST : String := "localhost"
  MQTT_PORT : Nat := 8883
  MQTT_USERNAME : String := ""
  MQTT_PASSWORD : String := ""
  MQTT_TRANSPORT : String := "websockets"
  ENCODING : String := "msgpack"
  RESULT_TOPIC : String := "results/\x7bslug\x7d"
  ERROR_TOPIC : String := "errors/\x7bslug\x7d"

/-- `MQTTHandler.decode_message`: try msgpack, then UTF-8 JSON, then the raw
UTF-8 text; `none` (the Python `None` return) only when the UTF-8 decoding of
the payload itself fails.  `jp` models `json.loads` on the decoded text
(`none` = `json.JSONDecodeError`). -/
def decode_message (jp : String → Option Value) (payload : List Nat) : Option Value :=
  match unpackb payload with
  | some v => some v
  | none =>
    match utf8Decode payload with
    | none => none
    | some s =>
      match jp s with
      | some j => some j
      | none => some (.str s)

/-- `MQTTHandler.encode_message`: msgpack when the configured encoding is
`"msgpack"`, otherwise `json.dumps(data).encode()`; `none` (the Python `None`
return) when the serializer raises.  `fr` abstracts CPython float repr. -/
def encode_message (cfg : Config) (fr : Nat → String) (data : Value) : Option (List Nat) :=
  if cfg.ENCODING = "msgpack" then packb data
  else
    match jsonDumps fr data with
    | some s => some (utf8Encode s)
    | none => none

/-- Substitution of `slug` into a topic template: every occurrence of the
literal `\x7bslug\x7d` placeholder is replaced (the effect of Python
`template.format(slug=slug)` on the `\x7bslug\x7d`-only templates this
handler uses). -/
def replaceSubAux (pat repl : List Char) : Nat → List Char → List Char
  | _, [] => []
  | 0, l => l
  | fuel + 1, c :: cs =>
    if pat.isPrefixOf (c :: cs) ∧ pat ≠ [] then
      repl ++ replaceSubAux pat repl fuel (List.drop pat.length (c :: cs))
    else
      c :: replaceSubAux pat repl fuel cs

/-- `template.format(slug=slug)` for a `\x7bslug\x7d` placeholder template. -/
def formatSlug (template slug : String) : String :=
  String.mk (replaceSubAux ("\x7bslug\x7d".data) slug.data template.data.length template.data)

/-- Python truthiness of the optional bytes returned by `encode_message`
(`if payload:`): false for `None` and for empty bytes. -/
def bytesTruthy : Option (List Nat) → Bool
  | none => false
  | some b => !(b.isEmpty)

/-- An observable action the handler performs on its MQTT client. -/
inductive HAction where
  | publish (topic : String) (payload : List Nat) (qos : Nat) (retain : Bool)

/-- The error payload built by `MQTTHandler.publish_error`:
`{"timestamp": time(), "type": error_type, "details": details}`.  `now` is
the IEEE-754 bit pattern of the `time()` float. -/
def errorData (now : Nat) (error_type : String) (details : Value) : Value :=
  .map [(.str "timestamp", .float now), (.str "type", .str error_type),
        (.str "details", details)]

/-- `MQTTHandler.publish_error`: format the error topic, encode the error
payload and publish it; an encode failure is logged and nothing is sent.
Returns the list of publish actions issued (empty or a singleton). -/
def publish_error (cfg : Config) (fr : Nat → String) (now : Nat)
    (slug error_type : String) (details : Value) (qos : Nat) (retain : Bool) :
    List HAction :=
  let topic := formatSlug cfg.ERROR_TOPIC slug
  let payload := encode_message cfg fr (errorData now error_type details)
  if bytesTruthy payload then
    [.publish topic (payload.getD []) qos retain]
  else
    []

/-- The `details` dict `publish_result` passes to `publish_error` when its
encode step fails: `{"error": str(e), "slug": slug}` with
`e = ValueError("Failed to encode result payload")`. -/
def resultFailureDetails (slug : String) : Value :=
  .map [(.str "error", .str "Failed to encode result payload"),
        (.str "slug", .str slug)]

/-- `MQTTHandler.publish_result`: format the result topic and publish the
encoded result; when the encode step yields a falsy payload the raised
`ValueError` is caught and `publish_error` is invoked with
`error_type = "publish_error"` (and its default `qos=0`, `retain=False`).
Returns the list of publish actions issued. -/
def publish_result (cfg : Config) (fr : Nat → String) (now : Nat)
    (slug : String) (result : Value) (qos : Nat) (retain : Bool) :
    List HAction :=
  let topic := formatSlug cfg.RESULT_TOPIC slug
  let payload := encode_message cfg fr result
  if bytesTruthy payload then
    [.publish topic (payload.getD []) qos retain]
  else
    publish_error cfg fr now slug "publish_error" (resultFailureDetails slug) 0 false

/-- State of the underlying MQTT client session, as far as `disconnect`
observes it.  Modelled from the paho-mqtt client the handler wraps:
`disconnect()` returns `MQTT_ERR_SUCCESS` (0) and closes the session when
connected, and returns `MQTT_ERR_NO_CONN` (4) without raising when there is
no open connection. -/
structure ClientState where
  connected : Bool

/-- `client.disconnect()` of the wrapped client: total (never raises),
returning the new session state and the result code. -/
def client_disconnect (c : ClientState) : ClientState × Nat :=
  if c.connected then ({ connected := false }, 0) else (c, 4)

/-- `MQTTHandler.disconnect`: a plain delegation to the client. -/
def handler_disconnect (c : ClientState) : ClientState × Nat :=
  client_disconnect c

/-! ## The subscription service (`service.py`)

`MQTTService` holds the mutable state `{_subscribed, _running, message_count}`
(`self.topic` and `self.processor_callback` are fixed at construction and
appear as parameters).  Each lifecycle callback becomes a function from the
old state (plus the event data) to the new state, together with the list of
requests it issues on the handler.  A processor callback that raises is an
`Except.error`; the `try/except` of `on_message` is the outer `match`. -/

/-- The mutable state of `MQTTService`. -/
structure ServiceState where
  subscribed : Bool
  running : Bool
  message_count : Nat

/-- An observable request the service issues on its handler/client. -/
inductive SAction where
  | subscribe (topic : String) (qos : Nat)
  | reconnect

/-- Python truthiness of `self.topic` (`None` and the empty string are falsy). -/
def topicTruthy : Option String → Bool
  | none => false
  | some t => !(t.isEmpty)

/-- The configured topic string (only meaningful when truthy). -/
def topicStr : Option String → String
  | none => ""
  | some t => t

/-- `MQTTService.on_connect`: on result code 0, subscribe (qos 1) when not
yet subscribed and a topic is configured, marking `_subscribed` as part of
issuing the request; on a nonzero code, log the mapped cause and mark
not-subscribed. -/
def on_connect (topic : Option String) (st : ServiceState) (rc : Nat) :
    ServiceState × List SAction :=
  if rc = 0 then
    if st.subscribed = false ∧ topicTruthy topic = true then
      ({ st with subscribed := true }, [.subscribe (topicStr topic) 1])
    else
      (st, [])
  else
    ({ st with subscribed := false }, [])

/-- `MQTTService.on_subscribe`: the broker acknowledged the subscription. -/
def on_subscribe (st : ServiceState) : ServiceState :=
  { st with subscribed := true }

/-- `MQTTService.on_disconnect`: mark not-subscribed and, when still running,
make one `client.reconnect()` attempt whose failure (`outcome = .error`) is
caught and logged — never retried here. -/
def on_disconnect (st : ServiceState) (outcome : Except String Unit) :
    ServiceState × List SAction :=
  let st1 := { st with subscribed := false }
  if st1.running = true then
    match outcome with
    | .ok _ => (st1, [.reconnect])
    | .error _ => (st1, [.reconnect])
  else
    (st1, [])

/-- The body of the `try` block of `MQTTService.on_message`: decode, drop on
decode failure, otherwise run the processor callback (whose exception
propagates as `.error`) and then increment the counter. -/
def on_message_try (jp : String → Option Value)
    (cb : Option (String → Value → Except String Unit))
    (st : ServiceState) (topic : String) (payload : List Nat) :
    Except String ServiceState :=
  match decode_message jp payload with
  | none => .ok st
  | some data =>
    match cb with
    | some f =>
      match f topic data with
      | .ok _ => .ok { st with message_count := st.message_count + 1 }
      | .error e => .error e
    | none => .ok st

/-- `MQTTService.on_message`: the `try` body with the `except` handler that
logs any exception and leaves the state as it was. -/
def on_message (jp : String → Option Value)
    (cb : Option (String → Value → Except String Unit))
    (st : ServiceState) (topic : String) (payload : List Nat) : ServiceState :=
  match on_message_try jp cb st topic payload with
  | .ok st1 => st1
  | .error _ => st

/-! ## Supporting lemmas for the claim theorems -/

theorem encode_message_ne_nil (cfg : Config) (fr : Nat → String) (data : Value)
    (payload : List Nat) (hfr : ∀ b, (fr b).data ≠ [])
    (h : encode_message cfg fr data = some payload) : payload ≠ [] := by
  rw [encode_message] at h
  split_ifs at h with hmp
  · rw [packb] at h
    have := packValue_length_pos _ _ h
    intro hc
    subst hc
    simp at this
  · cases hj : jsonDumps fr data with
    | none => rw [hj] at h; simp at h
    | some str1 =>
      rw [hj] at h
      simp only [Option.some.injEq] at h
      subst h
      exact utf8Encode_ne_nil str1 (jsonDumps_ne_nil fr hfr data str1 hj)

/-! ## The claims -/

/-- C1: for every bytes payload, `decode_message` never raises (it is a total
function into `Option`): it first attempts msgpack deserialization; on failure
it attempts a UTF-8 JSON parse; on JSON failure it returns the payload decoded
as a UTF-8 string; and it returns the decode-failure marker `none` exactly
when the msgpack attempt failed and UTF-8 decoding of the payload itself
fails.  Quantified over every behavior `jp` of the external JSON parser. -/
theorem decode_message_spec (jp : String → Option Value) (p : List Nat) :
    (decode_message jp p = none ↔ unpackb p = none ∧ utf8Decode p = none) ∧
    (∀ v, unpackb p = some v → decode_message jp p = some v) ∧
    (∀ s, unpackb p = none → utf8Decode p = some s →
      decode_message jp p =
        (match jp s with
         | some j => some j
         | none => some (.str s))) := by
  cases hu : unpackb p with
  | some v =>
    refine ⟨?_, ?_, ?_⟩
    · simp [decode_message, hu]
    · intro w hw
      simp only [Option.some.injEq] at hw
      subst hw
      simp [decode_message, hu]
    · intro s hnone _
      exact absurd hnone (by simp)
  | none =>
    cases hd : utf8Decode p with
    | none =>
      refine ⟨?_, ?_, ?_⟩
      · simp [decode_message, hu, hd]
      · intro w hw
        exact absurd hw (by simp)
      · intro s _ hs
        exact absurd hs (by simp)
    | some s =>
      refine ⟨?_, ?_, ?_⟩
      · cases hj : jp s <;> simp [decode_message, hu, hd, hj]
      · intro w hw
        exact absurd hw (by simp)
      · intro t _ hts
        simp only [Option.some.injEq] at hts
        subst hts
        simp [decode_message, hu, hd]

theorem decode_message_spec_witness :
    unpackb [0xC3] = some (.bool true) ∧
    decode_message (fun _ => none) [0xC3] = some (.bool true) :=
  ⟨rfl, (decode_message_spec (fun _ => none) [0xC3]).2.1 (.bool true) rfl⟩

/-- C2, counterexample to the claim as stated: the int-keyed dict `{1: 2}`
is serializable by msgpack (its encoding under the default msgpack
configuration is `0x81 0x01 0x02`), but decoding that encoding yields the
decode-failure marker `None`, not the payload: `unpackb`'s default
`strict_map_key=True` rejects the integer key with `ValueError`, and the
UTF-8 fallback then fails on the continuation byte `0x81`.  So
`decode_message (encode_message p) ≠ p` at `p = {1: 2}`. -/
theorem decode_encode_roundtrip_counterexample :
    encode_message {} (fun _ => "0.0") (.map [(.int 1, .int 2)]) =
      some [0x81, 0x01, 0x02] ∧
    decode_message (fun _ => none) [0x81, 0x01, 0x02] = none :=
  ⟨rfl, rfl⟩

/-- C2 (amended): when the configured encoding is msgpack, decoding an
encoded payload returns the payload — `decode_message (encode_message p) = p`
whenever the encode succeeds — for every payload whose maps use only
`str`/`bytes` keys (the keys `unpackb`'s default `strict_map_key=True`
admits), and for every behavior of the external JSON parser. -/
theorem decode_encode_roundtrip (jp : String → Option Value) (cfg : Config)
    (fr : Nat → String) (p : Value) (b : List Nat)
    (hkeys : strictMapKeys p = true)
    (henc : cfg.ENCODING = "msgpack") (h : encode_message cfg fr p = some b) :
    decode_message jp b = some p := by
  rw [encode_message, if_pos henc] at h
  have hu := unpackb_packb p b hkeys h
  rw [decode_message, hu]

theorem decode_encode_roundtrip_witness :
    encode_message {} (fun _ => "0.0") (.map [(.str "a", .array [.int 1, .str "b"])]) =
      some [0x81, 0xA1, 0x61, 0x92, 0x01, 0xA1, 0x62] ∧
    decode_message (fun _ => none) [0x81, 0xA1, 0x61, 0x92, 0x01, 0xA1, 0x62] =
      some (.map [(.str "a", .array [.int 1, .str "b"])]) :=
  ⟨rfl, decode_encode_roundtrip (fun _ => none) {} (fun _ => "0.0")
    (.map [(.str "a", .array [.int 1, .str "b"])])
    [0x81, 0xA1, 0x61, 0x92, 0x01, 0xA1, 0x62] rfl rfl rfl⟩

/-- C3: a processor callback that raises does not propagate out of
`on_message` (the handler returns normally with the state unchanged, so the
service loop keeps running and the `running` flag is untouched), the message
counter does not increment for that message, and the counter increments
exactly when the callback completed without raising. -/
theorem on_message_exception_policy (jp : String → Option Value)
    (f : String → Value → Except String Unit) (st : ServiceState)
    (topic : String) (payload : List Nat) :
    ((on_message jp (some f) st topic payload).running = st.running) ∧
    (∀ data e, decode_message jp payload = some data → f topic data = .error e →
      on_message jp (some f) st topic payload = st) ∧
    ((on_message jp (some f) st topic payload).message_count = st.message_count + 1 ↔
      ∃ data, decode_message jp payload = some data ∧ f topic data = .ok ()) := by
  cases hdec : decode_message jp payload with
  | none =>
    refine ⟨?_, ?_, ?_⟩
    · simp [on_message, on_message_try, hdec]
    · intro data e hd
      exact absurd hd (by simp)
    · simp [on_message, on_message_try, hdec]
  | some data =>
    cases hf : f topic data with
    | ok u =>
      cases u
      refine ⟨?_, ?_, ?_⟩
      · simp [on_message, on_message_try, hdec, hf]
      · intro d e hd hfe
        simp only [Option.some.injEq] at hd
        subst hd
        rw [hf] at hfe
        exact absurd hfe (by simp)
      · constructor
        · intro _
          exact ⟨data, rfl, hf⟩
        · intro _
          simp [on_message, on_message_try, hdec, hf]
    | error e =>
      refine ⟨?_, ?_, ?_⟩
      · simp [on_message, on_message_try, hdec, hf]
      · intro d e2 hd hfe
        simp [on_message, on_message_try, hdec, hf]
      · simp [on_message, on_message_try, hdec, hf]

theorem on_message_exception_policy_witness :
    on_message (fun _ => none) (some fun _ _ => .error "boom")
      ⟨true, true, 5⟩ "t" [0xC3] = ⟨true, true, 5⟩ :=
  (on_message_exception_policy (fun _ => none) (fun _ _ => .error "boom")
    ⟨true, true, 5⟩ "t" [0xC3]).2.1 (.bool true) "boom" rfl rfl

/-- C5: `encode_message` returns the failure marker `none` (the embedded
`EncodeError` the caller must handle) exactly on input the configured
serializer cannot serialize; on serializable input it returns the encoded
bytes — an outbound message is never silently dropped by the encode step. -/
theorem encode_message_fails_iff (cfg : Config) (fr : Nat → String) (v : Value) :
    encode_message cfg fr v = none ↔
      (if cfg.ENCODING = "msgpack" then msgpackSerializable v
       else jsonSerializable v) = false := by
  rw [encode_message]
  split_ifs with hmp
  · have hiff := packb_isSome_iff v
    cases h : packb v with
    | none =>
      rw [h] at hiff
      simp only [Option.isSome_none, Bool.false_eq_true, false_iff] at hiff
      simp [Bool.not_eq_true] at hiff
      simp [hiff]
    | some bs =>
      rw [h] at hiff
      simp only [Option.isSome_some, true_iff] at hiff
      simp [hiff]
  · have hiff := jsonDumps_isSome_iff fr v
    cases h : jsonDumps fr v with
    | none =>
      rw [h] at hiff
      simp only [Option.isSome_none, Bool.false_eq_true, false_iff] at hiff
      simp [Bool.not_eq_true] at hiff
      simp [h, hiff]
    | some str1 =>
      rw [h] at hiff
      simp only [Option.isSome_some, true_iff] at hiff
      simp [h, hiff]

theorem encode_message_fails_iff_witness :
    encode_message {} (fun _ => "0.0") (.int 0x10000000000000000) = none :=
  (encode_message_fails_iff {} (fun _ => "0.0") (.int 0x10000000000000000)).mpr
    (by decide)

/-- The error payload `publish_error` builds is msgpack-serializable whenever
the timestamp bits fit a double and the slug is not absurdly long. -/
theorem errorData_msgpack_ser (now : Nat) (slug : String)
    (hnow : now < 0x10000000000000000)
    (hslug : (utf8Encode slug).length < 0x100000000) :
    msgpackSerializable (errorData now "publish_error" (resultFailureDetails slug)) = true := by
  simp only [errorData, resultFailureDetails, msgpackSerializable,
    msgpackSerializablePairs, Bool.and_eq_true, decide_eq_true_eq]
  repeat' apply And.intro
  all_goals first | trivial | exact hnow | exact hslug | simp

/-- The error payload `publish_error` builds is always JSON-serializable. -/
theorem errorData_json_ser (now : Nat) (slug : String) :
    jsonSerializable (errorData now "publish_error" (resultFailureDetails slug)) = true := by
  simp [errorData, resultFailureDetails, jsonSerializable, jsonSerializablePairs, jsonKeyOk]

/-- C4: whenever `publish_result`'s encode step fails, `publish_error` is
invoked automatically with `error_type = "publish_error"` and a `details`
dict whose `"slug"` entry is the original slug (and the default `qos=0`,
`retain=False`); and that `publish_error` call publishes to the formatted
error topic the encoding of the payload
`{"timestamp": float, "type": string, "details": structured}`. -/
theorem publish_result_encode_failure (cfg : Config) (fr : Nat → String) (now : Nat)
    (slug : String) (result : Value) (qos : Nat) (retain : Bool)
    (hfr : ∀ b, (fr b).data ≠ [])
    (hnow : now < 0x10000000000000000)
    (hslug : (utf8Encode slug).length < 0x100000000)
    (henc : bytesTruthy (encode_message cfg fr result) = false) :
    publish_result cfg fr now slug result qos retain =
      publish_error cfg fr now slug "publish_error" (resultFailureDetails slug) 0 false ∧
    ∃ payload,
      encode_message cfg fr (errorData now "publish_error" (resultFailureDetails slug)) =
        some payload ∧
      publish_error cfg fr now slug "publish_error" (resultFailureDetails slug) 0 false =
        [.publish (formatSlug cfg.ERROR_TOPIC slug) payload 0 false] := by
  constructor
  · simp only [publish_result]
    rw [if_neg (by simp [henc])]
  · have hser : (encode_message cfg fr
        (errorData now "publish_error" (resultFailureDetails slug))).isSome = true := by
      rw [encode_message]
      split_ifs with hmp
      · rw [packb_isSome_iff]
        exact errorData_msgpack_ser now slug hnow hslug
      · cases hj : jsonDumps fr (errorData now "publish_error" (resultFailureDetails slug)) with
        | none =>
          have hx := jsonDumps_isSome_iff fr
            (errorData now "publish_error" (resultFailureDetails slug))
          rw [hj] at hx
          simp only [Option.isSome_none, Bool.false_eq_true, false_iff] at hx
          exact absurd (errorData_json_ser now slug) hx
        | some s1 => simp
    obtain ⟨payload, hpay⟩ := Option.isSome_iff_exists.mp hser
    refine ⟨payload, hpay, ?_⟩
    have hne : payload ≠ [] := encode_message_ne_nil cfg fr _ payload hfr hpay
    have hie : payload.isEmpty = false := by
      cases payload with
      | nil => exact absurd rfl hne
      | cons a l => rfl
    simp only [publish_error, hpay]
    rw [if_pos (by simp [bytesTruthy, hie])]
    simp

theorem publish_result_encode_failure_witness :
    publish_result {} (fun _ => "0.0") 0 "job-42" (.int 0x10000000000000000) 1 true =
      publish_error {} (fun _ => "0.0") 0 "job-42" "publish_error"
        (resultFailureDetails "job-42") 0 false :=
  (publish_result_encode_failure {} (fun _ => "0.0") 0 "job-42"
    (.int 0x10000000000000000) 1 true
    (fun _ => (by decide : ("0.0" : String).data ≠ [])) (by decide) (by decide)
    (by rfl)).1

/-- C6: for every slug and every result the configured encoding serializes,
`publish_result slug result` publishes exactly the encoded result to the
topic obtained by substituting the slug into the result-topic template. -/
theorem publish_result_success (cfg : Config) (fr : Nat → String) (now : Nat)
    (slug : String) (result : Value) (qos : Nat) (retain : Bool) (payload : List Nat)
    (hfr : ∀ b, (fr b).data ≠ [])
    (h : encode_message cfg fr result = some payload) :
    publish_result cfg fr now slug result qos retain =
      [.publish (formatSlug cfg.RESULT_TOPIC slug) payload qos retain] := by
  have hne := encode_message_ne_nil cfg fr result payload hfr h
  have hie : payload.isEmpty = false := by
    cases payload with
    | nil => exact absurd rfl hne
    | cons a l => rfl
  simp only [publish_result, h]
  rw [if_pos (by simp [bytesTruthy, hie])]
  simp

theorem publish_result_success_witness :
    publish_result {} (fun _ => "0.0") 0 "job-42" (.int 7) 0 false =
      [.publish "results/job-42" [7] 0 false] := by
  have h := publish_result_success {} (fun _ => "0.0") 0 "job-42" (.int 7) 0 false [7]
    (fun _ => (by decide : ("0.0" : String).data ≠ [])) rfl
  rw [h]
  rfl

/-- C7: on a disconnect event delivered while the running flag is true, the
service marks itself unsubscribed and makes exactly one reconnect attempt;
the state and action trace are the same whether that attempt succeeds or
fails (`outcome`), so a failed attempt is not retried by this layer. -/
theorem on_disconnect_one_attempt (st : ServiceState) (outcome : Except String Unit)
    (hrun : st.running = true) :
    on_disconnect st outcome = ({ st with subscribed := false }, [.reconnect]) := by
  cases outcome <;> simp [on_disconnect, hrun]

theorem on_disconnect_one_attempt_witness :
    on_disconnect ⟨true, true, 0⟩ (.error "x") = (⟨false, true, 0⟩, [.reconnect]) :=
  on_disconnect_one_attempt ⟨true, true, 0⟩ (.error "x") rfl

/-- C8: on a connect event with result code 0, when not yet subscribed and a
topic is configured (non-`None`, nonempty), the service issues
`subscribe(topic, qos=1)` and sets the subscribed flag as part of issuing the
request; on a nonzero result code it marks itself not-subscribed (and issues
nothing). -/
theorem on_connect_policy (topic : Option String) (st : ServiceState) (rc : Nat) :
    (∀ t, rc = 0 → st.subscribed = false → topic = some t → t.isEmpty = false →
      on_connect topic st rc = ({ st with subscribed := true }, [.subscribe t 1])) ∧
    (rc ≠ 0 → on_connect topic st rc = ({ st with subscribed := false }, [])) := by
  constructor
  · intro t h0 hsub ht hne
    subst h0
    subst ht
    simp [on_connect, topicTruthy, topicStr, hsub, hne]
  · intro hr
    simp [on_connect, hr]

theorem on_connect_policy_witness :
    on_connect (some "jobs/all") ⟨false, true, 0⟩ 0 =
      (⟨true, true, 0⟩, [.subscribe "jobs/all" 1]) :=
  (on_connect_policy (some "jobs/all") ⟨false, true, 0⟩ 0).1 "jobs/all" rfl rfl rfl rfl

/-- C9: `disconnect` is idempotent and total (the wrapped client returns a
result code instead of raising): a second call leaves the client state
unchanged and reports `MQTT_ERR_NO_CONN` (4), and calling it when the client
was never connected likewise returns normally with code 4. -/
theorem handler_disconnect_idempotent (c : ClientState) :
    ((handler_disconnect (handler_disconnect c).1).1 = (handler_disconnect c).1 ∧
     (handler_disconnect (handler_disconnect c).1).2 = 4) ∧
    handler_disconnect { connected := false } = ({ connected := false }, 4) := by
  obtain ⟨b⟩ := c
  cases b <;> simp [handler_disconnect, client_disconnect]

theorem handler_disconnect_idempotent_witness :
    (handler_disconnect (handler_disconnect ⟨true⟩).1).1 = (handler_disconnect ⟨true⟩).1 :=
  (handler_disconnect_idempotent ⟨true⟩).1.1

/-- C10: when no processor callback is configured, `on_message` decodes the
message and discards it without error: the state — in particular the message
counter — is returned unchanged, for every payload. -/
theorem on_message_no_callback (jp : String → Option Value) (st : ServiceState)
    (topic : String) (payload : List Nat) :
    on_message jp none st topic payload = st := by
  cases hdec : decode_message jp payload <;>
    simp [on_message, on_message_try, hdec]

theorem on_message_no_callback_witness :
    on_message (fun _ => none) none ⟨true, true, 3⟩ "t" [0xC3] = ⟨true, true, 3⟩ :=
  on_message_no_callback (fun _ => none) ⟨true, true, 3⟩ "t" [0xC3]

end MqttSpec
